import Mathlib

/-!
Shallow embedding of the kubelet memory-manager static policy
(the memorymanager package of this repository) and of the
topology-manager scope (scope.go), with theorems checking the
specification claims against it.

Modelling conventions.  Go uint64 values are modelled as Nat: every
subtraction performed by the embedded code paths is guarded by an
explicit comparison in the source, so on values below 2 to the 64 the
Nat semantics coincides with the Go semantics (the one unguarded
subtraction, building allocatable in the default machine state, wraps
in Go and truncates here; no claim depends on its value).  Go maps are
modelled as association lists with first-match lookup.  Reading a key
that is absent, which in Go dereferences a nil pointer and crashes the
process, is modelled as a skip; the theorems are stated on states
where the accessed entries exist.  A nil Go slice is modelled as the
empty list: the embedded code distinguishes nil only through nil
checks, and a stored nil slice behaves exactly like an absent entry in
both Allocate and RemoveContainer.
-/

namespace MemMgr

/-- Association list lookup, first match wins (Go map read). -/
def lookupKey {α β : Type} [DecidableEq α] (k : α) : List (α × β) → Option β
  | [] => none
  | kv :: rest => if kv.1 = k then some kv.2 else lookupKey k rest

/-- Association list lookup with a default (Go map read returning the zero value). -/
def lookupD {α β : Type} [DecidableEq α] (m : List (α × β)) (k : α) (d : β) : β :=
  (lookupKey k m).getD d

/-- Go map write for a key that may be new: replace the first matching
entry in place or append at the end. -/
def insertKey {α β : Type} [DecidableEq α] (k : α) (v : β) : List (α × β) → List (α × β)
  | [] => [(k, v)]
  | kv :: rest => if kv.1 = k then (k, v) :: rest else kv :: insertKey k v rest

/-- Go map update through a pointer: modify the first entry with this
key, no effect when the key is absent. -/
def updateKey {α β : Type} [DecidableEq α] (k : α) (f : β → β) : List (α × β) → List (α × β)
  | [] => []
  | kv :: rest => if kv.1 = k then (k, f kv.2) :: rest else kv :: updateKey k f rest

/-- Go map delete: remove the first entry with this key. -/
def eraseKey {α β : Type} [DecidableEq α] (k : α) : List (α × β) → List (α × β)
  | [] => []
  | kv :: rest => if kv.1 = k then rest else kv :: eraseKey k rest

abbrev ResourceName := String

def resourceMemory : ResourceName := "memory"

/-- Modelled from the spec: hugepage resource classes are resource names
keyed by page size; the Go helper recognising them (not part of src)
tests the hugepages name prefix. -/
def isHugePageResourceName (r : ResourceName) : Bool :=
  "hugepages-".data.isPrefixOf r.data

/-- Modelled from the spec: a BitMask is a fixed-width set of NUMA node
ids below 64, represented by the natural number whose binary digits are
the member bits (the bitmask package is not part of src). -/
abbrev BitMask := Nat

def isSetBM (m : BitMask) (i : Nat) : Bool := Nat.testBit m i

/-- Modelled from the spec: the member bits of a mask in ascending order. -/
def getBits (m : BitMask) : List Nat :=
  (List.range 64).filter (fun i => Nat.testBit m i)

def maskCount (m : BitMask) : Nat := (getBits m).length

def newBitMask (bits : List Nat) : BitMask :=
  bits.foldl (fun acc b => acc ||| (1 <<< b)) 0

/-- GetBits on an optional mask; a nil mask in Go would panic, which is
unreachable in the paths the claims exercise, so it yields no bits here. -/
def getBitsOpt : Option BitMask → List Nat
  | none => []
  | some m => getBits m

def lowestSetBit (n : Nat) : Nat := (getBits n).headD 0

/-- Modelled from the spec: narrowness order on masks - strictly fewer
bits, or equal counts and the lowest differing bit belonging to the
left mask. -/
def isNarrowerThan (a b : BitMask) : Bool :=
  if maskCount a = maskCount b then
    decide (Nat.xor a b ≠ 0) && Nat.testBit a (lowestSetBit (Nat.xor a b))
  else decide (maskCount a < maskCount b)

structure MemoryTable where
  Allocatable : Nat
  Free : Nat
  Reserved : Nat
  SystemReserved : Nat
  TotalMemSize : Nat
deriving DecidableEq, Repr

structure NodeState where
  NumberOfAssignments : Nat
  MemoryMap : List (ResourceName × MemoryTable)
  Nodes : List Nat
deriving DecidableEq, Repr

abbrev NodeMap := List (Nat × NodeState)

/-- One reservation record; the Go field named Type is called BlockType
here because Type is a Lean keyword. -/
structure Block where
  NUMAAffinity : List Nat
  Size : Nat
  BlockType : ResourceName
  Reused : Nat
deriving DecidableEq, Repr

structure TopologyHint where
  NUMANodeAffinity : Option BitMask
  Preferred : Bool
deriving DecidableEq, Repr

/-- Byte counts of container.Resources.Requests; quantities are carried
as already-converted integral values (the Go AsInt64 failure path for
non-integral quantities is not exercised by the claims). -/
structure Container where
  name : String
  requests : List (ResourceName × Nat)
deriving DecidableEq, Repr

inductive PodQOSClass where
  | Guaranteed
  | Burstable
  | BestEffort
deriving DecidableEq, Repr

/-- Modelled from the spec for the qosClass field only: the QoS class is
computed by a helper outside src (Guaranteed when requests equal
limits); the pod carries the classification as a field here. -/
structure Pod where
  uid : String
  qosClass : PodQOSClass
  initContainers : List Container
  containers : List Container
deriving DecidableEq, Repr

abbrev Assignments := List ((String × String) × List Block)

/-- The state touched by the static policy: the machine state and the
memory-block assignments held by the State store, and the pod-local
reusable pool held by the policy object. -/
structure PolicyState where
  machineState : NodeMap
  assignments : Assignments
  memoryToReuse : List (String × List Block)
deriving DecidableEq, Repr

def getMemoryBlocks (a : Assignments) (podUID containerName : String) : List Block :=
  lookupD a (podUID, containerName) []

def setMemoryBlocks (a : Assignments) (podUID containerName : String)
    (blocks : List Block) : Assignments :=
  insertKey (podUID, containerName) blocks a

def deleteAssignment (a : Assignments) (podUID containerName : String) : Assignments :=
  eraseKey (podUID, containerName) a

def getRequestedResources (container : Container) : List (ResourceName × Nat) :=
  container.requests.foldl
    (fun acc rq =>
      if rq.1 == resourceMemory || isHugePageResourceName rq.1 then insertKey rq.1 rq.2 acc
      else acc)
    []

/-- The pool reduction performed for one allocated block of an app
container: every reusable block of the matching type shrinks by the
allocated block's Reused amount, saturating at zero. -/
def reduceReusable (pool : List Block) (b : Block) : List Block :=
  pool.map (fun rb =>
    if b.BlockType = rb.BlockType then
      { rb with Size := if rb.Size > b.Reused then rb.Size - b.Reused else 0 }
    else rb)

def updateMemoryToReuse (pool : List (String × List Block)) (pod : Pod)
    (container : Container) (blocks : List Block) : List (String × List Block) :=
  let pool1 := pool.filter (fun e => e.1 == pod.uid)
  if pod.initContainers.any (fun ic => ic.name == container.name) then
    insertKey pod.uid blocks pool1
  else
    updateKey pod.uid (fun pb => blocks.foldl reduceReusable pb) pool1

/-- The requested-minus-reusable computation at the top of Allocate: the
copy of requested, then for every reusable block of a requested type a
conditional subtraction followed by an unconditional write of zero,
exactly as the source does. -/
def requestedAbsoluteOf (requestedResources : List (ResourceName × Nat))
    (reusable : List Block) : List (ResourceName × Nat) :=
  reusable.foldl (fun acc rb =>
    match lookupKey rb.BlockType requestedResources with
    | none => acc
    | some req =>
      let acc1 := if req > rb.Size then insertKey rb.BlockType (req - rb.Size) acc else acc
      insertKey rb.BlockType 0 acc1)
    requestedResources

def sortInsert (x : Nat) : List Nat → List Nat
  | [] => [x]
  | y :: ys => if x ≤ y then x :: y :: ys else y :: sortInsert x ys

def sortInts (l : List Nat) : List Nat := l.foldr sortInsert []

/-- sort.Ints on both lists, then the length check and the elementwise
comparison, which together are equality of the sorted lists. -/
def areGroupsEqual (group1 group2 : List Nat) : Bool :=
  sortInts group1 == sortInts group2

/-- All combinations of the given size, first elements first. -/
def combinations {α : Type} : Nat → List α → List (List α)
  | 0, _ => [[]]
  | _ + 1, [] => []
  | k + 1, x :: xs => (combinations k xs).map (fun c => x :: c) ++ combinations (k + 1) xs

/-- Modelled from the spec: visit every non-empty subset of the sorted
node list exactly once, deterministically - sizes ascending and, within
one size, combinations in lexicographic order. -/
def allMaskBits (nodes : List Nat) : List (List Nat) :=
  (List.range nodes.length).foldl (fun acc i => acc ++ combinations (i + 1) nodes) []

/-- The reusable-block adjustment performed for one candidate mask
inside calculateHints.  The result is none when some reusable block of
a requested type has NUMA affinity not fully contained in the mask, in
which case the source skips the mask entirely.  Subtraction uses the
original requested value and happens only when it strictly exceeds the
block size, exactly as the source does. -/
def maskAdjustedRequested (requestedResources : List (ResourceName × Nat)) (mask : BitMask) :
    List Block → List (ResourceName × Nat) → Option (List (ResourceName × Nat))
  | [], requested => some requested
  | rb :: rest, requested =>
    if (lookupKey rb.BlockType requestedResources).isNone then
      maskAdjustedRequested requestedResources mask rest requested
    else if rb.NUMAAffinity.all (fun numaID => isSetBM mask numaID) then
      maskAdjustedRequested requestedResources mask rest
        (if lookupD requestedResources rb.BlockType 0 > rb.Size then
          insertKey rb.BlockType (lookupD requestedResources rb.BlockType 0 - rb.Size) requested
        else requested)
    else none

def emptyNodeState : NodeState := { NumberOfAssignments := 0, MemoryMap := [], Nodes := [] }

/-- The per-node group compatibility test of the calculateHints closure;
the source aborts the subset on the first failing node, and the sums it
accumulated before aborting are discarded, so testing all nodes first
is observationally the same. -/
def checkGroupsOK (machineState : NodeMap) (singleNUMAHint : Bool) (maskBits : List Nat) : Bool :=
  maskBits.all (fun nodeID =>
    let ns := (lookupKey nodeID machineState).getD emptyNodeState
    if !singleNUMAHint && decide (ns.NumberOfAssignments > 0) then
      decide (ns.Nodes.length ≠ 1) && areGroupsEqual ns.Nodes maskBits
    else true)

def totalMaskFree (machineState : NodeMap) (maskBits : List Nat) (r : ResourceName) : Nat :=
  (maskBits.map (fun nodeID =>
    (((lookupKey nodeID machineState).bind (fun ns => lookupKey r ns.MemoryMap)).map
      MemoryTable.Free).getD 0)).sum

def totalMaskAllocatable (machineState : NodeMap) (maskBits : List Nat) (r : ResourceName) : Nat :=
  (maskBits.map (fun nodeID =>
    (((lookupKey nodeID machineState).bind (fun ns => lookupKey r ns.MemoryMap)).map
      MemoryTable.Allocatable).getD 0)).sum

/-- The body of the closure passed to IterateBitMasks in calculateHints;
the fold state is the pair of minAffinitySize and the hints map. -/
def visitMask (machineState : NodeMap) (requestedResources : List (ResourceName × Nat))
    (reusable : List Block) (st : Nat × List (ResourceName × List TopologyHint))
    (maskBits : List Nat) : Nat × List (ResourceName × List TopologyHint) :=
  let mask := newBitMask maskBits
  let singleNUMAHint := maskBits.length == 1
  if singleNUMAHint &&
      decide (((lookupKey (maskBits.headD 0) machineState).getD emptyNodeState).Nodes.length > 1) then
    st
  else
    match maskAdjustedRequested requestedResources mask reusable requestedResources with
    | none => st
    | some requested =>
      if !checkGroupsOK machineState singleNUMAHint maskBits then st
      else if !(requested.all (fun rq =>
          decide (rq.2 ≤ totalMaskAllocatable machineState maskBits rq.1))) then st
      else
        let minA := if maskBits.length < st.1 then maskBits.length else st.1
        if !(requested.all (fun rq =>
            decide (rq.2 ≤ totalMaskFree machineState maskBits rq.1))) then (minA, st.2)
        else
          (minA, requested.foldl (fun hs rq =>
            insertKey rq.1 ((lookupD hs rq.1 []) ++
              [{ NUMANodeAffinity := some mask, Preferred := false }]) hs) st.2)

def isHintPreferred (maskBits : List Nat) (minAffinitySize : Nat) : Bool :=
  maskBits.length == minAffinitySize

def calculateHints (machineState : NodeMap) (requestedResources : List (ResourceName × Nat))
    (reusable : List Block) : List (ResourceName × List TopologyHint) :=
  let numaNodes := sortInts (machineState.map Prod.fst)
  let res := (allMaskBits numaNodes).foldl (visitMask machineState requestedResources reusable)
    (numaNodes.length, [])
  res.2.map (fun e => (e.1, e.2.map (fun h =>
    match h.NUMANodeAffinity with
    | some m => { h with Preferred := isHintPreferred (getBits m) res.1 }
    | none => h)))

def findBestHint (hints : List TopologyHint) : TopologyHint :=
  hints.foldl (fun bestHint hint =>
    match bestHint.NUMANodeAffinity with
    | none => hint
    | some bm =>
      if hint.Preferred && !bestHint.Preferred then hint
      else if hint.Preferred == bestHint.Preferred &&
          isNarrowerThan ((hint.NUMANodeAffinity).getD 0) bm then hint
      else bestHint)
    { NUMANodeAffinity := none, Preferred := false }

def errNoDefaultHint : String := "failed to get the default NUMA affinity"

def errDefaultNotPreferred : String := "failed to find the default preferred hint"

def errNoExtendHint : String := "failed to find NUMA nodes to extend the current topology hint"

def errExtendNotPreferred : String := "failed to find the extended preferred hint"

def getDefaultHint (machineState : NodeMap) (reusable : List Block)
    (requestedResources : List (ResourceName × Nat)) : Except String TopologyHint :=
  let hints := calculateHints machineState requestedResources reusable
  if hints.length < 1 then Except.error errNoDefaultHint
  else Except.ok (findBestHint (lookupD hints resourceMemory []))

def isAffinitySatisfyRequest (machineState : NodeMap) (mask : Option BitMask)
    (requestedResources : List (ResourceName × Nat)) : Bool :=
  requestedResources.all (fun rq =>
    decide (rq.2 ≤ totalMaskFree machineState (getBitsOpt mask) rq.1))

/-- The scanning loop of isHintInGroup: both lists are already sorted;
the index into hint advances on a match, success is detected only at
the head of a later loop iteration, and falling off the loop returns
false even when every hint element was matched. -/
def isHintInGroupAux (hint : List Nat) : List Nat → Nat → Bool
  | [], _ => false
  | g :: gs, hintIndex =>
    if hintIndex = hint.length then true
    else if g ≠ hint.getD hintIndex 0 then isHintInGroupAux hint gs hintIndex
    else isHintInGroupAux hint gs (hintIndex + 1)

def isHintInGroup (hint group : List Nat) : Bool :=
  isHintInGroupAux (sortInts hint) (sortInts group) 0

def extendTopologyManagerHint (machineState : NodeMap)
    (requestedResources : List (ResourceName × Nat)) (mask : Option BitMask) :
    Except String TopologyHint :=
  let hints := calculateHints machineState requestedResources []
  let filteredHints := (lookupD hints resourceMemory []).filter (fun hint =>
    isHintInGroup (getBitsOpt mask) (getBitsOpt hint.NUMANodeAffinity))
  if filteredHints.length < 1 then Except.error errNoExtendHint
  else Except.ok (findBestHint filteredHints)

/-- The hint-resolution prefix of Allocate: take the stored affinity, or
the default hint when the stored affinity is nil, then extend it when it
does not satisfy the absolute request in free bytes; each replacement is
rejected when it loses preferredness. -/
def resolveBestHint (machineState : NodeMap) (reusable : List Block)
    (requestedResources : List (ResourceName × Nat)) (hint : TopologyHint) :
    Except String TopologyHint :=
  let step1 : Except String TopologyHint :=
    match hint.NUMANodeAffinity with
    | some _ => Except.ok hint
    | none =>
      match getDefaultHint machineState reusable requestedResources with
      | Except.error e => Except.error e
      | Except.ok defaultHint =>
        if !defaultHint.Preferred && hint.Preferred then Except.error errDefaultNotPreferred
        else Except.ok defaultHint
  match step1 with
  | Except.error e => Except.error e
  | Except.ok bestHint =>
    let requestedAbsolute := requestedAbsoluteOf requestedResources reusable
    if !isAffinitySatisfyRequest machineState bestHint.NUMANodeAffinity requestedAbsolute then
      match extendTopologyManagerHint machineState requestedAbsolute bestHint.NUMANodeAffinity with
      | Except.error e => Except.error e
      | Except.ok extendedHint =>
        if !extendedHint.Preferred && bestHint.Preferred then Except.error errExtendNotPreferred
        else Except.ok extendedHint
    else Except.ok bestHint

def lookupMem (ms : NodeMap) (nodeId : Nat) (r : ResourceName) : Option MemoryTable :=
  (lookupKey nodeId ms).bind (fun ns => lookupKey r ns.MemoryMap)

def updateMem (nodeId : Nat) (r : ResourceName) (f : MemoryTable → MemoryTable)
    (ms : NodeMap) : NodeMap :=
  updateKey nodeId (fun ns => { ns with MemoryMap := updateKey r f ns.MemoryMap }) ms

/-- The memory part of one node visit of the allocation loop: skip when
nothing remains or the node has no free bytes, otherwise move as much of
the remaining request as possible from Free to Reserved. -/
def reserveMemStep (r : ResourceName) (st : Nat × NodeMap) (nodeId : Nat) : Nat × NodeMap :=
  let requestedSize := st.1
  if requestedSize = 0 then st
  else
    match lookupMem st.2 nodeId r with
    | none => st
    | some t =>
      if t.Free = 0 then st
      else if requestedSize ≤ t.Free then
        (0, updateMem nodeId r
          (fun tt => { tt with Reserved := tt.Reserved + requestedSize,
                               Free := tt.Free - requestedSize }) st.2)
      else
        (requestedSize - t.Free, updateMem nodeId r
          (fun tt => { tt with Reserved := tt.Reserved + tt.Free, Free := 0 }) st.2)

/-- One node visit of the allocation loop: bump the assignment count,
overwrite the node group with the mask bits, then the memory part. -/
def allocNodeStep (maskBits : List Nat) (r : ResourceName) (st : Nat × NodeMap)
    (nodeId : Nat) : Nat × NodeMap :=
  let ms1 := updateKey nodeId
    (fun ns => { ns with NumberOfAssignments := ns.NumberOfAssignments + 1,
                         Nodes := maskBits }) st.2
  reserveMemStep r (st.1, ms1) nodeId

/-- One iteration of the per-resource loop of Allocate: append the Block
for this resource and walk the mask nodes updating the machine state. -/
def applyStep (maskBits : List Nat) (requestedResources : List (ResourceName × Nat))
    (st : List Block × NodeMap) (rq : ResourceName × Nat) : List Block × NodeMap :=
  let reused := lookupD requestedResources rq.1 0 - rq.2
  (st.1 ++ [{ NUMAAffinity := maskBits, Size := rq.2, BlockType := rq.1, Reused := reused }],
   (maskBits.foldl (allocNodeStep maskBits rq.1) (rq.2, st.2)).2)

/-- The per-resource loop of Allocate: build one Block per entry of the
absolute request and walk the mask nodes updating the machine state. -/
def applyAllocation (maskBits : List Nat) (requestedResources requestedAbsolute :
    List (ResourceName × Nat)) (ms : NodeMap) : List Block × NodeMap :=
  requestedAbsolute.foldl (applyStep maskBits requestedResources) ([], ms)

/-- staticPolicy.Allocate.  The topology-manager affinity for the
container is passed as the hint argument (the Go code reads it from the
affinity store).  The Go function's error return is the Except error;
the ok value is the successor state of machine state, assignments and
the reusable pool. -/
def Allocate (p : PolicyState) (pod : Pod) (container : Container) (hint : TopologyHint) :
    Except String PolicyState :=
  if pod.qosClass ≠ PodQOSClass.Guaranteed then Except.ok p
  else
    let blocks := getMemoryBlocks p.assignments pod.uid container.name
    if blocks ≠ [] then
      Except.ok { p with memoryToReuse := updateMemoryToReuse p.memoryToReuse pod container blocks }
    else
      let requestedResources := getRequestedResources container
      let reusable := lookupD p.memoryToReuse pod.uid []
      match resolveBestHint p.machineState reusable requestedResources hint with
      | Except.error e => Except.error e
      | Except.ok bestHint =>
        let requestedAbsolute := requestedAbsoluteOf requestedResources reusable
        let maskBits := getBitsOpt bestHint.NUMANodeAffinity
        let r := applyAllocation maskBits requestedResources requestedAbsolute p.machineState
        Except.ok
          { machineState := r.2,
            assignments := setMemoryBlocks p.assignments pod.uid container.name r.1,
            memoryToReuse := updateMemoryToReuse p.memoryToReuse pod container r.1 }

/-- The successor state the success path of Allocate builds for a
resolved hint, written out for reasoning about that path. -/
def allocSuccessor (p : PolicyState) (pod : Pod) (container : Container)
    (bestHint : TopologyHint) : PolicyState :=
  let requestedResources := getRequestedResources container
  let reusable := lookupD p.memoryToReuse pod.uid []
  let requestedAbsolute := requestedAbsoluteOf requestedResources reusable
  let maskBits := getBitsOpt bestHint.NUMANodeAffinity
  let r := applyAllocation maskBits requestedResources requestedAbsolute p.machineState
  { machineState := r.2,
    assignments := setMemoryBlocks p.assignments pod.uid container.name r.1,
    memoryToReuse := updateMemoryToReuse p.memoryToReuse pod container r.1 }

/-- The memory part of one node visit of the release loop: skip when
nothing remains or the node has no reserved bytes, otherwise move as
much of the remaining size as possible from Reserved back to Free. -/
def releaseMemStep (r : ResourceName) (st : Nat × NodeMap) (nodeId : Nat) : Nat × NodeMap :=
  let releasedSize := st.1
  if releasedSize = 0 then st
  else
    match lookupMem st.2 nodeId r with
    | none => st
    | some t =>
      if t.Reserved = 0 then st
      else if t.Reserved < releasedSize then
        (releasedSize - t.Reserved, updateMem nodeId r
          (fun tt => { tt with Free := tt.Free + tt.Reserved, Reserved := 0 }) st.2)
      else
        (0, updateMem nodeId r
          (fun tt => { tt with Free := tt.Free + releasedSize,
                               Reserved := tt.Reserved - releasedSize }) st.2)

/-- One node visit of the release loop: drop the assignment count,
reset the group to the singleton of the node when the count reaches
zero, then the memory part. -/
def removeNodeStep (r : ResourceName) (st : Nat × NodeMap) (nodeId : Nat) : Nat × NodeMap :=
  let ms1 := updateKey nodeId
    (fun ns =>
      let a := ns.NumberOfAssignments - 1
      if a = 0 then { ns with NumberOfAssignments := a, Nodes := [nodeId] }
      else { ns with NumberOfAssignments := a }) st.2
  releaseMemStep r (st.1, ms1) nodeId

/-- staticPolicy.RemoveContainer.  The Go function always returns a nil
error, so the model returns the successor state directly. -/
def RemoveContainer (p : PolicyState) (podUID containerName : String) : PolicyState :=
  let blocks := getMemoryBlocks p.assignments podUID containerName
  if blocks = [] then p
  else
    { p with
      assignments := deleteAssignment p.assignments podUID containerName,
      machineState := blocks.foldl (fun ms b =>
        (b.NUMAAffinity.foldl (removeNodeStep b.BlockType) (b.Size, ms)).2) p.machineState }

/-- regenerateHints; the none result is the Go nil map returned on any
mismatch between the stored blocks and the expected sizes.  The bits
bound in NewBitMask (modelled from the spec as below 64) give the Go
error branch. -/
def regenerateHints (ctnBlocks : List Block) (reqRsrc : List (ResourceName × Nat)) :
    Option (List (ResourceName × List TopologyHint)) :=
  let hints0 := reqRsrc.map (fun rq => (rq.1, ([] : List TopologyHint)))
  if ctnBlocks.length ≠ reqRsrc.length then none
  else
    ctnBlocks.foldl (fun acc b =>
      match acc with
      | none => none
      | some hs =>
        if (lookupKey b.BlockType reqRsrc).isNone then none
        else if b.Size ≠ lookupD reqRsrc b.BlockType 0 then none
        else if !(b.NUMAAffinity.all (fun i => decide (i < 64))) then none
        else some (insertKey b.BlockType ((lookupD hs b.BlockType []) ++
          [{ NUMANodeAffinity := some (newBitMask b.NUMAAffinity), Preferred := true }]) hs))
      (some hints0)

/-- staticPolicy.GetTopologyHints; none is the Go nil map.  The function
only reads the state, which the model makes explicit by not returning a
successor state. -/
def GetTopologyHints (p : PolicyState) (pod : Pod) (container : Container) :
    Option (List (ResourceName × List TopologyHint)) :=
  if pod.qosClass ≠ PodQOSClass.Guaranteed then none
  else
    let requestedResources := getRequestedResources container
    let containerBlocks := getMemoryBlocks p.assignments pod.uid container.name
    if containerBlocks ≠ [] then regenerateHints containerBlocks requestedResources
    else some (calculateHints p.machineState requestedResources (lookupD p.memoryToReuse pod.uid []))

/-- getPodRequestedResources: maximum per resource over init containers,
sum per resource over app containers, then the merge loop, which the
source iterates over the app map only. -/
def getPodRequestedResources (pod : Pod) : List (ResourceName × Nat) :=
  let reqRsrcsByInitCtrs := pod.initContainers.foldl (fun acc ctr =>
    (getRequestedResources ctr).foldl (fun acc2 rq =>
      let cur := lookupD acc2 rq.1 0
      insertKey rq.1 (if rq.2 > cur then rq.2 else cur) acc2) acc) []
  let reqRsrcsByAppCtrs := pod.containers.foldl (fun acc ctr =>
    (getRequestedResources ctr).foldl (fun acc2 rq =>
      insertKey rq.1 (lookupD acc2 rq.1 0 + rq.2) acc2) acc) []
  reqRsrcsByAppCtrs.map (fun rq =>
    (rq.1, if lookupD reqRsrcsByInitCtrs rq.1 0 > rq.2 then lookupD reqRsrcsByInitCtrs rq.1 0
           else rq.2))

def firstContainerWithBlocks (a : Assignments) (podUID : String) :
    List Container → Option Container
  | [] => none
  | c :: cs =>
    if getMemoryBlocks a podUID c.name ≠ [] then some c
    else firstContainerWithBlocks a podUID cs

/-- staticPolicy.GetPodTopologyHints; none is the Go nil map. -/
def GetPodTopologyHints (p : PolicyState) (pod : Pod) :
    Option (List (ResourceName × List TopologyHint)) :=
  if pod.qosClass ≠ PodQOSClass.Guaranteed then none
  else
    let reqRsrcs := getPodRequestedResources pod
    match firstContainerWithBlocks p.assignments pod.uid (pod.initContainers ++ pod.containers) with
    | some ctn => regenerateHints (getMemoryBlocks p.assignments pod.uid ctn.name) reqRsrcs
    | none => some (calculateHints p.machineState reqRsrcs [])

structure HugePagesInfo where
  PageSize : Nat
  NumPages : Nat
deriving DecidableEq, Repr

structure MachineInfoNode where
  Id : Nat
  Memory : Nat
  HugePages : List HugePagesInfo
deriving DecidableEq, Repr

abbrev SystemReservedMemory := List (Nat × List (ResourceName × Nat))

def getResourceSystemReserved (reserved : SystemReservedMemory) (nodeId : Nat)
    (r : ResourceName) : Nat :=
  ((lookupKey nodeId reserved).bind (lookupKey r)).getD 0

/-- Modelled from the spec for the name formatting only: the hugepage
class name is derived from the page size; the Go helper canonicalises
the byte quantity, here the decimal byte count is used. -/
def hugePageResourceName (sizeBytes : Nat) : ResourceName :=
  "hugepages-" ++ toString sizeBytes

/-- The per-node body of getDefaultMachineState: hugepage tables first,
then the regular memory table whose allocatable subtracts the system
reserve and the total hugepage bytes (Go wraps on underflow, Nat
truncates; no claim depends on the wrapped value). -/
def defaultNodeState (reserved : SystemReservedMemory) (node : MachineInfoNode) : NodeState :=
  let hp := node.HugePages.foldl
    (fun (acc : List (ResourceName × MemoryTable) × Nat) hugepage =>
      let resourceName := hugePageResourceName (hugepage.PageSize * 1024)
      let systemReserved := getResourceSystemReserved reserved node.Id resourceName
      let total := hugepage.NumPages * hugepage.PageSize * 1024
      let allocatable := total - systemReserved
      (insertKey resourceName
        { Allocatable := allocatable, Free := allocatable, Reserved := 0,
          SystemReserved := systemReserved, TotalMemSize := total } acc.1,
       acc.2 + total))
    ([], 0)
  let systemReserved := getResourceSystemReserved reserved node.Id resourceMemory
  let allocatable := node.Memory - systemReserved - hp.2
  { NumberOfAssignments := 0,
    MemoryMap := insertKey resourceMemory
      { Allocatable := allocatable, Free := allocatable, Reserved := 0,
        SystemReserved := systemReserved, TotalMemSize := node.Memory } hp.1,
    Nodes := [node.Id] }

def getDefaultMachineState (machineInfo : List MachineInfoNode)
    (reserved : SystemReservedMemory) : NodeMap :=
  machineInfo.foldl (fun ms node => insertKey node.Id (defaultNodeState reserved node) ms) []

def initialPolicyState (machineInfo : List MachineInfoNode)
    (reserved : SystemReservedMemory) : PolicyState :=
  { machineState := getDefaultMachineState machineInfo reserved,
    assignments := [], memoryToReuse := [] }

/-- One call against the static policy, with the affinity-store hint
carried by the allocate operation. -/
inductive PolicyOp where
  | allocate (pod : Pod) (container : Container) (hint : TopologyHint)
  | removeContainer (podUID containerName : String)
deriving Repr

/-- A failed Allocate leaves the caller's state as it was. -/
def runOp (p : PolicyState) (op : PolicyOp) : PolicyState :=
  match op with
  | PolicyOp.allocate pod container hint =>
    match Allocate p pod container hint with
    | Except.ok q => q
    | Except.error _ => p
  | PolicyOp.removeContainer u c => RemoveContainer p u c

def runOps (p : PolicyState) (ops : List PolicyOp) : PolicyState := ops.foldl runOp p

/-- The mutable state of the topology-manager scope: the affinity table
keyed by pod uid and container name, and the container-id to pod-uid
index. -/
structure ScopeState where
  podTopologyHints : List (String × List (String × TopologyHint))
  podMap : List (String × String)
deriving DecidableEq, Repr

def emptyString : String := ""

/-- scope.GetAffinity: the double map read, whose missing entries give
the Go zero value TopologyHint. -/
def GetAffinity (s : ScopeState) (podUID containerName : String) : TopologyHint :=
  (((lookupKey podUID s.podTopologyHints).bind (lookupKey containerName)).getD
    { NUMANodeAffinity := none, Preferred := false })

/-- scope.RemoveContainer: resolve the pod uid through the index (the
empty string when unknown), drop the index binding, and delete the key
equal to the container id - not the container name - from that pod's
hint map, dropping the pod entry when it becomes empty.  The Go
function always returns a nil error. -/
def scopeRemoveContainer (s : ScopeState) (containerID : String) : ScopeState :=
  let podUIDString := lookupD s.podMap containerID emptyString
  let podMap2 := eraseKey containerID s.podMap
  match lookupKey podUIDString s.podTopologyHints with
  | none => { podTopologyHints := s.podTopologyHints, podMap := podMap2 }
  | some inner =>
    let inner2 := eraseKey containerID inner
    if inner2.length = 0 then
      { podTopologyHints := eraseKey podUIDString s.podTopologyHints, podMap := podMap2 }
    else
      { podTopologyHints := insertKey podUIDString inner2 s.podTopologyHints, podMap := podMap2 }

/-! Helper shapes used by the walk-decomposition lemmas below: the two
node updates the allocation and release walks perform touch only the
assignment count and the group, never the memory map. -/

/-- A node update acting on the assignment count and, as a function of
the old count, on the group; the memory map is untouched. -/
def onAssign (fA : Nat → Nat) (fN : Nat → List Nat → List Nat) (ns : NodeState) : NodeState :=
  { ns with NumberOfAssignments := fA ns.NumberOfAssignments,
            Nodes := fN ns.NumberOfAssignments ns.Nodes }

def bumpFn (maskBits : List Nat) : NodeState → NodeState :=
  onAssign (fun a => a + 1) (fun _ _ => maskBits)

def dropFn (nodeId : Nat) : NodeState → NodeState :=
  onAssign (fun a => a - 1) (fun a nodes => if a - 1 = 0 then [nodeId] else nodes)

/-- The effect of k bumps in a row. -/
def bumpKFn (maskBits : List Nat) (k : Nat) : NodeState → NodeState :=
  onAssign (fun a => a + k) (fun _ nodes => if k = 0 then nodes else maskBits)

/-- The effect of k drops in a row. -/
def dropKFn (nodeId : Nat) (k : Nat) : NodeState → NodeState :=
  onAssign (fun a => a - k) (fun a nodes => if k = 0 then nodes else if a ≤ k then [nodeId] else nodes)

def mapNodes (bits : List Nat) (f : Nat → NodeState → NodeState) (ms : NodeMap) : NodeMap :=
  bits.foldl (fun m n => updateKey n (f n) m) ms

def mapNodesIter (bits : List Nat) (f : Nat → NodeState → NodeState) : Nat → NodeMap → NodeMap
  | 0, ms => ms
  | k + 1, ms => mapNodesIter bits f k (mapNodes bits f ms)

/-- A node update is memory-blind when it neither reads nor writes the
memory map; both walk updates are of this shape. -/
def MMBlind (f : NodeState → NodeState) : Prop :=
  ∀ ns mm, f { ns with MemoryMap := mm } = { f ns with MemoryMap := mm }

/-- Freshness of the mask nodes in a snapshot: no assignments, singleton
group, and no reserved bytes for any of the allocated resource types.
Nodes absent from the machine state are untouched by both walks. -/
def freshForMask (ms : NodeMap) (ras : List (ResourceName × Nat)) (bits : List Nat) : Bool :=
  bits.all (fun n =>
    match lookupKey n ms with
    | none => true
    | some ns =>
      decide (ns.NumberOfAssignments = 0) && (ns.Nodes == [n]) &&
        ras.all (fun rq =>
          match lookupKey rq.1 ns.MemoryMap with
          | none => true
          | some t => decide (t.Reserved = 0)))

/-- The memory halves of the allocation walks for a list of resources. -/
def reserveMulti (bits : List Nat) (ras : List (ResourceName × Nat)) (ms : NodeMap) : NodeMap :=
  ras.foldl (fun m rq => (bits.foldl (reserveMemStep rq.1) (rq.2, m)).2) ms

/-- Two snapshots with the same node list where every node carries the
same assignment count and group; the memory tables may differ.  All the
walk updates of the memory halves leave a snapshot in this relation
with its origin. -/
def shapeEq (ms1 ms2 : NodeMap) : Prop :=
  List.Forall₂ (fun e1 e2 => e1.1 = e2.1
    ∧ e1.2.NumberOfAssignments = e2.2.NumberOfAssignments
    ∧ e1.2.Nodes = e2.2.Nodes) ms1 ms2

/-- The memory halves of the release walks for a list of resources. -/
def releaseMulti (bits : List Nat) (ras : List (ResourceName × Nat)) (ms : NodeMap) : NodeMap :=
  ras.foldl (fun m rq => (bits.foldl (releaseMemStep rq.1) (rq.2, m)).2) ms

/-! Properties the claims talk about. -/

/-- Conservation, the memory-table invariant of the spec: free plus
reserved equals allocatable; the values are non-negative by the Nat
carrier, which mirrors uint64 because every subtraction the embedded
code performs is guarded. -/
def conservation (ms : NodeMap) : Prop :=
  ∀ e ∈ ms, ∀ rt ∈ (e : Nat × NodeState).2.MemoryMap,
    (rt : ResourceName × MemoryTable).2.Free + rt.2.Reserved = rt.2.Allocatable
    ∧ 0 ≤ rt.2.Free ∧ 0 ≤ rt.2.Reserved ∧ 0 ≤ rt.2.Allocatable

/-- Group coherence as the claim states it: a node with assignments has
every group member assigned with an equal group (compared as sorted
sets), and an unassigned node's group is the singleton of its own id. -/
def groupCoherent (ms : NodeMap) : Bool :=
  ms.all (fun e =>
    (if e.2.NumberOfAssignments > 0 then
      e.2.Nodes.all (fun m =>
        match lookupKey m ms with
        | some ns2 => decide (ns2.NumberOfAssignments > 0) && areGroupsEqual ns2.Nodes e.2.Nodes
        | none => false)
    else true)
    && (if e.2.NumberOfAssignments = 0 then e.2.Nodes == [e.1] else true))

/-! Concrete fixtures used by counterexamples and witnesses. -/

def memTable (alloc free res : Nat) : MemoryTable :=
  { Allocatable := alloc, Free := free, Reserved := res, SystemReserved := 0,
    TotalMemSize := alloc }

/-- Two fresh NUMA nodes with ten free memory bytes each. -/
def msC6 : NodeMap :=
  [ (0, { NumberOfAssignments := 0, MemoryMap := [(resourceMemory, memTable 10 10 0)],
          Nodes := [0] }),
    (1, { NumberOfAssignments := 0, MemoryMap := [(resourceMemory, memTable 10 10 0)],
          Nodes := [1] }) ]

/-- A machine state in which node 0 already carries five reserved bytes. -/
def p0C3 : PolicyState :=
  { machineState :=
      [ (0, { NumberOfAssignments := 1, MemoryMap := [(resourceMemory, memTable 10 5 5)],
              Nodes := [0, 1] }),
        (1, { NumberOfAssignments := 1, MemoryMap := [(resourceMemory, memTable 10 10 0)],
              Nodes := [0, 1] }) ],
    assignments := [], memoryToReuse := [] }

def ctrC3 : Container := { name := "c", requests := [(resourceMemory, 8)] }

def podC3 : Pod :=
  { uid := "p", qosClass := PodQOSClass.Guaranteed, initContainers := [],
    containers := [ctrC3] }

def hintC3 : TopologyHint := { NUMANodeAffinity := some (newBitMask [0, 1]), Preferred := false }

def allocC3 : PolicyState := runOp p0C3 (PolicyOp.allocate podC3 ctrC3 hintC3)

/-- Two-node machine of twenty bytes with one reserved byte per node. -/
def miFix : List MachineInfoNode :=
  [ { Id := 0, Memory := 20, HugePages := [] }, { Id := 1, Memory := 20, HugePages := [] } ]

def resFix : SystemReservedMemory :=
  [ (0, [(resourceMemory, 1)]), (1, [(resourceMemory, 1)]) ]

def ctrInitC4 : Container := { name := "init1", requests := [(resourceMemory, 10)] }

def ctrAppC4 : Container := { name := "app1", requests := [(resourceMemory, 6)] }

def podC4 : Pod :=
  { uid := "pi", qosClass := PodQOSClass.Guaranteed,
    initContainers := [ctrInitC4], containers := [ctrAppC4] }

def hintC4 : TopologyHint := { NUMANodeAffinity := some (newBitMask [0]), Preferred := true }

/-- The state after admitting the init container and then the app
container of podC4 on node 0. -/
def stC4 : PolicyState :=
  runOps (initialPolicyState miFix resFix)
    [PolicyOp.allocate podC4 ctrInitC4 hintC4, PolicyOp.allocate podC4 ctrAppC4 hintC4]

def ctrA5 : Container := { name := "ca", requests := [(resourceMemory, 2)] }

def podA5 : Pod :=
  { uid := "pa", qosClass := PodQOSClass.Guaranteed, initContainers := [],
    containers := [ctrA5] }

def ctrB5 : Container := { name := "cb", requests := [(resourceMemory, 2)] }

def podB5 : Pod :=
  { uid := "pb", qosClass := PodQOSClass.Guaranteed, initContainers := [],
    containers := [ctrB5] }

/-- Allocate pod A on the pair of nodes, then pod B on node 0 alone,
with the affinity the Go code would read from the topology manager
store. -/
def finalC5 : NodeMap :=
  (runOps (initialPolicyState miFix resFix)
    [ PolicyOp.allocate podA5 ctrA5 { NUMANodeAffinity := some (newBitMask [0, 1]), Preferred := false },
      PolicyOp.allocate podB5 ctrB5 { NUMANodeAffinity := some (newBitMask [0]), Preferred := false } ]).machineState

def hugepages1Gi : ResourceName := "hugepages-1Gi"

/-- A pod whose init container requests a hugepage class no app
container requests. -/
def podC7 : Pod :=
  { uid := "p7", qosClass := PodQOSClass.Guaranteed,
    initContainers := [{ name := "i", requests := [(hugepages1Gi, 5)] }],
    containers := [{ name := "a", requests := [(resourceMemory, 3)] }] }

/-- Modelled from the spec: the summed app-container request of one
resource class. -/
def appSum (pod : Pod) (r : ResourceName) : Nat :=
  (pod.containers.flatMap getRequestedResources).foldl
    (fun s rq => if rq.1 = r then s + rq.2 else s) 0

/-- Modelled from the spec: the maximum init-container request of one
resource class. -/
def initMax (pod : Pod) (r : ResourceName) : Nat :=
  (pod.initContainers.flatMap getRequestedResources).foldl
    (fun s rq => if rq.1 = r then max s rq.2 else s) 0

/-- A scope holding one admitted container: the affinity table is keyed
by the container name while the index maps the container id. -/
def s0C9 : ScopeState :=
  { podTopologyHints := [("pu", [("cname", { NUMANodeAffinity := some 1, Preferred := true })])],
    podMap := [("cid", "pu")] }

def cidC9 : String := "cid"

def podBE : Pod :=
  { uid := "pb8", qosClass := PodQOSClass.BestEffort, initContainers := [],
    containers := [ctrA5] }

/-! A round trip on the fresh two-node machine: one guaranteed container
asking for eight bytes over the pair mask. -/

def ctrRT : Container := { name := "crt", requests := [(resourceMemory, 8)] }

def podRT : Pod :=
  { uid := "prt", qosClass := PodQOSClass.Guaranteed, initContainers := [],
    containers := [ctrRT] }

def hintRT : TopologyHint :=
  { NUMANodeAffinity := some (newBitMask [0, 1]), Preferred := false }

def stRT : PolicyState := initialPolicyState miFix resFix

/-- The hint the policy resolves for the round-trip container. -/
def bhRT : TopologyHint :=
  (resolveBestHint stRT.machineState (lookupD stRT.memoryToReuse podRT.uid [])
    (getRequestedResources ctrRT) hintRT).toOption.getD
    { NUMANodeAffinity := none, Preferred := false }

/-- The state after admitting the round-trip container. -/
def qRT : PolicyState := (Allocate stRT podRT ctrRT hintRT).toOption.getD stRT

/-! Theorems.  First a small algebra of the association-list maps. -/

theorem lookupKey_mem {α β : Type} [DecidableEq α] {k : α} {v : β} {m : List (α × β)}
    (h : lookupKey k m = some v) : (k, v) ∈ m := by
  induction m with
  | nil => simp [lookupKey] at h
  | cons kv rest ih =>
    rw [lookupKey] at h
    by_cases hk : kv.1 = k
    · rw [if_pos hk] at h
      injection h with h2
      obtain ⟨k1, v1⟩ := kv
      dsimp at hk h2
      subst hk
      subst h2
      exact List.mem_cons_self _ _
    · rw [if_neg hk] at h
      exact List.mem_cons_of_mem _ (ih h)

theorem mem_updateKey {α β : Type} [DecidableEq α] {k : α} {f : β → β} {m : List (α × β)}
    {x : α × β} (hx : x ∈ updateKey k f m) :
    x ∈ m ∨ ∃ v, lookupKey k m = some v ∧ x = (k, f v) := by
  induction m with
  | nil => simp [updateKey] at hx
  | cons kv rest ih =>
    rw [updateKey] at hx
    by_cases hk : kv.1 = k
    · rw [if_pos hk] at hx
      rcases List.mem_cons.mp hx with h1 | h2
      · right
        exact ⟨kv.2, by rw [lookupKey, if_pos hk], h1⟩
      · left
        exact List.mem_cons_of_mem _ h2
    · rw [if_neg hk] at hx
      rcases List.mem_cons.mp hx with h1 | h2
      · left
        rw [h1]
        exact List.mem_cons_self _ _
      · rcases ih h2 with h3 | ⟨v, hv, he⟩
        · left
          exact List.mem_cons_of_mem _ h3
        · right
          exact ⟨v, by rw [lookupKey, if_neg hk]; exact hv, he⟩

theorem mem_insertKey {α β : Type} [DecidableEq α] {k : α} {v : β} {m : List (α × β)}
    {x : α × β} (hx : x ∈ insertKey k v m) : x ∈ m ∨ x = (k, v) := by
  induction m with
  | nil => simp [insertKey] at hx; right; exact hx
  | cons kv rest ih =>
    rw [insertKey] at hx
    by_cases hk : kv.1 = k
    · rw [if_pos hk] at hx
      rcases List.mem_cons.mp hx with h1 | h2
      · right; exact h1
      · left; exact List.mem_cons_of_mem _ h2
    · rw [if_neg hk] at hx
      rcases List.mem_cons.mp hx with h1 | h2
      · left; rw [h1]; exact List.mem_cons_self _ _
      · rcases ih h2 with h3 | h4
        · left; exact List.mem_cons_of_mem _ h3
        · right; exact h4

theorem lookupKey_updateKey {α β : Type} [DecidableEq α] (k k2 : α) (f : β → β)
    (m : List (α × β)) :
    lookupKey k2 (updateKey k f m) =
      if k2 = k then (lookupKey k m).map f else lookupKey k2 m := by
  induction m with
  | nil => simp [lookupKey, updateKey]
  | cons kv rest ih =>
    by_cases hk : kv.1 = k
    · by_cases hk2 : k2 = k
      · subst hk2
        simp [updateKey, lookupKey, hk]
      · simp [updateKey, lookupKey, hk, hk2, Ne.symm hk2]
    · by_cases hk2 : k2 = k
      · subst hk2
        simp [updateKey, lookupKey, hk, ih]
      · by_cases hkv : kv.1 = k2
        · simp [updateKey, lookupKey, hk, hkv, hk2]
        · simp [updateKey, lookupKey, hk, hkv, hk2, ih]

theorem lookupKey_insertKey {α β : Type} [DecidableEq α] (k k2 : α) (v : β)
    (m : List (α × β)) :
    lookupKey k2 (insertKey k v m) = if k2 = k then some v else lookupKey k2 m := by
  induction m with
  | nil =>
    by_cases hk2 : k2 = k
    · simp [insertKey, lookupKey, hk2]
    · simp [insertKey, lookupKey, hk2, Ne.symm hk2]
  | cons kv rest ih =>
    by_cases hk : kv.1 = k
    · by_cases hk2 : k2 = k
      · simp [insertKey, lookupKey, hk, hk2]
      · simp [insertKey, lookupKey, hk, hk2, Ne.symm hk2]
    · by_cases hk2 : k2 = k
      · subst hk2
        simp [insertKey, lookupKey, hk, ih]
      · by_cases hkv : kv.1 = k2
        · simp [insertKey, lookupKey, hk, hkv, hk2]
        · simp [insertKey, lookupKey, hk, hkv, hk2, ih]

theorem insertKey_lookup_self {α β : Type} [DecidableEq α] {k : α} {v : β} {m : List (α × β)}
    (h : lookupKey k m = some v) : insertKey k v m = m := by
  induction m with
  | nil => simp [lookupKey] at h
  | cons kv rest ih =>
    rw [lookupKey] at h
    by_cases hk : kv.1 = k
    · rw [if_pos hk] at h
      injection h with h2
      rw [insertKey, if_pos hk]
      obtain ⟨k1, v1⟩ := kv
      dsimp at hk h2
      rw [hk, h2]
    · rw [if_neg hk] at h
      rw [insertKey, if_neg hk, ih h]

theorem updateKey_not_mem {α β : Type} [DecidableEq α] {k : α} {f : β → β} {m : List (α × β)}
    (h : lookupKey k m = none) : updateKey k f m = m := by
  induction m with
  | nil => rfl
  | cons kv rest ih =>
    rw [lookupKey] at h
    by_cases hk : kv.1 = k
    · rw [if_pos hk] at h
      simp at h
    · rw [if_neg hk] at h
      rw [updateKey, if_neg hk, ih h]

theorem updateKey_id {α β : Type} [DecidableEq α] {k : α} {f : β → β} {m : List (α × β)}
    (h : ∀ v, lookupKey k m = some v → f v = v) : updateKey k f m = m := by
  induction m with
  | nil => rfl
  | cons kv rest ih =>
    by_cases hk : kv.1 = k
    · rw [updateKey, if_pos hk]
      have hv := h kv.2 (by rw [lookupKey, if_pos hk])
      obtain ⟨k1, v1⟩ := kv
      dsimp at hk hv ⊢
      rw [hk, hv]
    · rw [updateKey, if_neg hk]
      rw [ih]
      intro v hv
      exact h v (by rw [lookupKey, if_neg hk]; exact hv)

theorem updateKey_congr_fun {α β : Type} [DecidableEq α] {k : α} {f g : β → β}
    (h : ∀ v, f v = g v) (m : List (α × β)) : updateKey k f m = updateKey k g m := by
  induction m with
  | nil => rfl
  | cons kv rest ih =>
    by_cases hk : kv.1 = k
    · rw [updateKey, if_pos hk, updateKey, if_pos hk, h kv.2]
    · rw [updateKey, if_neg hk, updateKey, if_neg hk, ih]

theorem updateKey_updateKey {α β : Type} [DecidableEq α] (k : α) (f g : β → β)
    (m : List (α × β)) :
    updateKey k f (updateKey k g m) = updateKey k (fun v => f (g v)) m := by
  induction m with
  | nil => rfl
  | cons kv rest ih =>
    by_cases hk : kv.1 = k
    · rw [updateKey, if_pos hk, updateKey, updateKey, if_pos hk]
      simp
    · rw [updateKey, if_neg hk, updateKey, if_neg hk, updateKey, if_neg hk, ih]

theorem updateKey_comm {α β : Type} [DecidableEq α] {k k2 : α} (hne : k ≠ k2) (f g : β → β)
    (m : List (α × β)) :
    updateKey k f (updateKey k2 g m) = updateKey k2 g (updateKey k f m) := by
  induction m with
  | nil => rfl
  | cons kv rest ih =>
    by_cases hk : kv.1 = k
    · have hk2 : ¬kv.1 = k2 := fun he => hne (hk.symm.trans he)
      rw [updateKey, if_neg hk2, updateKey, if_pos hk, updateKey, if_pos hk, updateKey,
        if_neg (show ¬(k, f kv.2).1 = k2 from hne)]
    · by_cases hk2 : kv.1 = k2
      · rw [updateKey, if_pos hk2, updateKey, if_neg (show ¬(k2, g kv.2).1 = k from Ne.symm hne),
          updateKey, if_neg hk, updateKey, if_pos hk2]
      · rw [updateKey, if_neg hk2, updateKey, if_neg hk, updateKey, if_neg hk, updateKey,
          if_neg hk2, ih]

theorem eraseKey_not_mem {α β : Type} [DecidableEq α] {k : α} {m : List (α × β)}
    (h : lookupKey k m = none) : eraseKey k m = m := by
  induction m with
  | nil => rfl
  | cons kv rest ih =>
    rw [lookupKey] at h
    by_cases hk : kv.1 = k
    · rw [if_pos hk] at h
      simp at h
    · rw [if_neg hk] at h
      rw [eraseKey, if_neg hk, ih h]

theorem lookupKey_eraseKey_ne {α β : Type} [DecidableEq α] {k k2 : α} (hne : k2 ≠ k)
    (m : List (α × β)) : lookupKey k2 (eraseKey k m) = lookupKey k2 m := by
  induction m with
  | nil => rfl
  | cons kv rest ih =>
    by_cases hk : kv.1 = k
    · rw [eraseKey, if_pos hk, lookupKey, if_neg (fun he => hne (he.symm.trans hk))]
    · by_cases hkv : kv.1 = k2
      · rw [eraseKey, if_neg hk, lookupKey, if_pos hkv, lookupKey, if_pos hkv]
      · rw [eraseKey, if_neg hk, lookupKey, if_neg hkv, lookupKey, if_neg hkv, ih]

theorem lookupKey_eraseKey_self {α β : Type} [DecidableEq α] {k : α} {m : List (α × β)}
    (h : (m.map Prod.fst).Nodup) : lookupKey k (eraseKey k m) = none := by
  induction m with
  | nil => rfl
  | cons kv rest ih =>
    rw [List.map_cons, List.nodup_cons] at h
    by_cases hk : kv.1 = k
    · rw [eraseKey, if_pos hk]
      cases hr : lookupKey k rest with
      | none => rfl
      | some v =>
        exact absurd (hk ▸ List.mem_map_of_mem Prod.fst (lookupKey_mem hr)) h.1
    · rw [eraseKey, if_neg hk, lookupKey, if_neg hk]
      exact ih h.2

theorem eraseKey_nil_cases {α β : Type} [DecidableEq α] {k : α} {m : List (α × β)}
    (h : eraseKey k m = []) : m = [] ∨ ∃ v, m = [(k, v)] := by
  cases m with
  | nil => left; rfl
  | cons kv rest =>
    rw [eraseKey] at h
    by_cases hk : kv.1 = k
    · rw [if_pos hk] at h
      right
      obtain ⟨k1, v1⟩ := kv
      dsimp at hk
      exact ⟨v1, by rw [h, hk]⟩
    · rw [if_neg hk] at h
      simp at h

theorem keys_updateKey {α β : Type} [DecidableEq α] (k : α) (f : β → β) (m : List (α × β)) :
    (updateKey k f m).map Prod.fst = m.map Prod.fst := by
  induction m with
  | nil => rfl
  | cons kv rest ih =>
    by_cases hk : kv.1 = k
    · rw [updateKey, if_pos hk]
      simp [hk]
    · rw [updateKey, if_neg hk]
      simp [ih]

theorem mem_keys_insertKey {α β : Type} [DecidableEq α] {k x : α} {v : β} {m : List (α × β)}
    (hx : x ∈ (insertKey k v m).map Prod.fst) : x = k ∨ x ∈ m.map Prod.fst := by
  rcases List.mem_map.mp hx with ⟨e, he, hex⟩
  rcases mem_insertKey he with h1 | h2
  · right
    exact hex ▸ List.mem_map_of_mem Prod.fst h1
  · left
    rw [← hex, h2]

theorem nodup_keys_insertKey {α β : Type} [DecidableEq α] {k : α} {v : β} {m : List (α × β)}
    (h : (m.map Prod.fst).Nodup) : ((insertKey k v m).map Prod.fst).Nodup := by
  induction m with
  | nil => simp [insertKey]
  | cons kv rest ih =>
    rw [List.map_cons, List.nodup_cons] at h
    by_cases hk : kv.1 = k
    · rw [insertKey, if_pos hk]
      rw [List.map_cons, List.nodup_cons]
      exact ⟨hk ▸ h.1, h.2⟩
    · rw [insertKey, if_neg hk]
      rw [List.map_cons, List.nodup_cons]
      refine ⟨?_, ih h.2⟩
      intro hmem
      rcases mem_keys_insertKey hmem with h1 | h2
      · exact hk h1
      · exact h.1 h2

/-! Conservation of the memory tables (claim C2). -/

theorem conservation_updateKey_mm {n : Nat} {f : NodeState → NodeState} {ms : NodeMap}
    (hf : ∀ ns, (f ns).MemoryMap = ns.MemoryMap) (h : conservation ms) :
    conservation (updateKey n f ms) := by
  intro e he rt hrt
  rcases mem_updateKey he with h1 | ⟨v, hv, he2⟩
  · exact h e h1 rt hrt
  · rw [he2] at hrt
    dsimp at hrt
    rw [hf v] at hrt
    exact h (n, v) (lookupKey_mem hv) rt hrt

theorem conservation_updateMem {n : Nat} {r : ResourceName} {g : MemoryTable → MemoryTable}
    {ms : NodeMap} (h : conservation ms)
    (hg : ∀ t, lookupMem ms n r = some t →
      (g t).Free + (g t).Reserved = (g t).Allocatable) :
    conservation (updateMem n r g ms) := by
  intro e he rt hrt
  rcases mem_updateKey he with h1 | ⟨v, hv, he2⟩
  · exact h e h1 rt hrt
  · rw [he2] at hrt
    dsimp at hrt
    rcases mem_updateKey hrt with h2 | ⟨t, ht, hrt2⟩
    · exact h (n, v) (lookupKey_mem hv) rt h2
    · have hmem : lookupMem ms n r = some t := by
        unfold lookupMem
        rw [hv]
        exact ht
      refine ⟨?_, Nat.zero_le _, Nat.zero_le _, Nat.zero_le _⟩
      rw [hrt2]
      exact hg t hmem

theorem conservation_lookupMem {ms : NodeMap} {n : Nat} {r : ResourceName} {t : MemoryTable}
    (h : conservation ms) (hm : lookupMem ms n r = some t) :
    t.Free + t.Reserved = t.Allocatable := by
  unfold lookupMem at hm
  cases hk : lookupKey n ms with
  | none => rw [hk] at hm; simp at hm
  | some ns =>
    rw [hk] at hm
    dsimp at hm
    exact (h (n, ns) (lookupKey_mem hk) (r, t) (lookupKey_mem hm)).1

theorem conservation_reserveMemStep {r : ResourceName} {st : Nat × NodeMap} {n : Nat}
    (h : conservation st.2) : conservation (reserveMemStep r st n).2 := by
  unfold reserveMemStep
  by_cases h0 : st.1 = 0
  · rw [if_pos h0]
    exact h
  · rw [if_neg h0]
    cases hm : lookupMem st.2 n r with
    | none => exact h
    | some t =>
      have hc := conservation_lookupMem h hm
      dsimp
      by_cases hfree : t.Free = 0
      · rw [if_pos hfree]
        exact h
      · rw [if_neg hfree]
        by_cases hle : st.1 ≤ t.Free
        · rw [if_pos hle]
          dsimp
          apply conservation_updateMem h
          intro t2 ht2
          rw [hm] at ht2
          injection ht2 with ht3
          subst ht3
          dsimp
          omega
        · rw [if_neg hle]
          dsimp
          apply conservation_updateMem h
          intro t2 ht2
          rw [hm] at ht2
          injection ht2 with ht3
          subst ht3
          dsimp
          omega

theorem conservation_releaseMemStep {r : ResourceName} {st : Nat × NodeMap} {n : Nat}
    (h : conservation st.2) : conservation (releaseMemStep r st n).2 := by
  unfold releaseMemStep
  by_cases h0 : st.1 = 0
  · rw [if_pos h0]
    exact h
  · rw [if_neg h0]
    cases hm : lookupMem st.2 n r with
    | none => exact h
    | some t =>
      have hc := conservation_lookupMem h hm
      dsimp
      by_cases hres : t.Reserved = 0
      · rw [if_pos hres]
        exact h
      · rw [if_neg hres]
        by_cases hlt : t.Reserved < st.1
        · rw [if_pos hlt]
          dsimp
          apply conservation_updateMem h
          intro t2 ht2
          rw [hm] at ht2
          injection ht2 with ht3
          subst ht3
          dsimp
          omega
        · rw [if_neg hlt]
          dsimp
          apply conservation_updateMem h
          intro t2 ht2
          rw [hm] at ht2
          injection ht2 with ht3
          subst ht3
          dsimp
          omega

theorem conservation_allocNodeStep {maskBits : List Nat} {r : ResourceName}
    {st : Nat × NodeMap} {n : Nat} (h : conservation st.2) :
    conservation (allocNodeStep maskBits r st n).2 := by
  unfold allocNodeStep
  apply conservation_reserveMemStep
  exact conservation_updateKey_mm (fun ns => rfl) h

theorem conservation_removeNodeStep {r : ResourceName} {st : Nat × NodeMap} {n : Nat}
    (h : conservation st.2) : conservation (removeNodeStep r st n).2 := by
  unfold removeNodeStep
  apply conservation_releaseMemStep
  apply conservation_updateKey_mm ?_ h
  intro ns
  dsimp
  by_cases ha : ns.NumberOfAssignments - 1 = 0
  · rw [if_pos ha]
  · rw [if_neg ha]

theorem conservation_foldl {σ α : Type} {step : σ × NodeMap → α → σ × NodeMap}
    (hstep : ∀ st x, conservation st.2 → conservation (step st x).2) :
    ∀ (l : List α) (st : σ × NodeMap), conservation st.2 → conservation (l.foldl step st).2 := by
  intro l
  induction l with
  | nil => intro st h; exact h
  | cons x xs ih =>
    intro st h
    exact ih _ (hstep st x h)

theorem conservation_applyAllocation {maskBits : List Nat}
    {requestedResources requestedAbsolute : List (ResourceName × Nat)} {ms : NodeMap}
    (h : conservation ms) :
    conservation (applyAllocation maskBits requestedResources requestedAbsolute ms).2 := by
  unfold applyAllocation
  apply conservation_foldl ?_ requestedAbsolute (([] : List Block), ms) h
  intro st rq hst
  dsimp
  exact conservation_foldl (fun st2 x h2 => conservation_allocNodeStep h2) maskBits _ hst

theorem conservation_Allocate {p : PolicyState} {pod : Pod} {container : Container}
    {hint : TopologyHint} {q : PolicyState} (hq : Allocate p pod container hint = Except.ok q)
    (h : conservation p.machineState) : conservation q.machineState := by
  unfold Allocate at hq
  by_cases hqos : pod.qosClass ≠ PodQOSClass.Guaranteed
  · rw [if_pos hqos] at hq
    injection hq with hq2
    rw [← hq2]
    exact h
  · rw [if_neg hqos] at hq
    by_cases hb : getMemoryBlocks p.assignments pod.uid container.name ≠ []
    · rw [if_pos hb] at hq
      injection hq with hq2
      rw [← hq2]
      exact h
    · rw [if_neg hb] at hq
      dsimp only at hq
      split at hq
      · simp at hq
      · injection hq with hq2
        rw [← hq2]
        exact conservation_applyAllocation h

theorem conservation_RemoveContainer {p : PolicyState} {podUID containerName : String}
    (h : conservation p.machineState) :
    conservation (RemoveContainer p podUID containerName).machineState := by
  unfold RemoveContainer
  by_cases hb : getMemoryBlocks p.assignments podUID containerName = []
  · rw [if_pos hb]
    exact h
  · rw [if_neg hb]
    dsimp
    generalize hms : p.machineState = ms0
    rw [hms] at h
    clear hms hb
    induction getMemoryBlocks p.assignments podUID containerName generalizing ms0 with
    | nil => exact h
    | cons b bs ih =>
      rw [List.foldl_cons]
      apply ih
      exact conservation_foldl (fun st x h2 => conservation_removeNodeStep h2)
        b.NUMAAffinity _ h

theorem conservation_runOp {p : PolicyState} {op : PolicyOp}
    (h : conservation p.machineState) : conservation (runOp p op).machineState := by
  cases op with
  | allocate pod container hint =>
    dsimp only [runOp]
    cases hr : Allocate p pod container hint with
    | ok q => exact conservation_Allocate hr h
    | error e => exact h
  | removeContainer u c =>
    dsimp only [runOp]
    exact conservation_RemoveContainer h

theorem conservation_defaultNodeState (reserved : SystemReservedMemory)
    (node : MachineInfoNode) :
    ∀ rt ∈ (defaultNodeState reserved node).MemoryMap,
      (rt : ResourceName × MemoryTable).2.Free + rt.2.Reserved = rt.2.Allocatable := by
  intro rt hrt
  unfold defaultNodeState at hrt
  dsimp at hrt
  rcases mem_insertKey hrt with h1 | h2
  · -- rt comes from the hugepages fold
    have haux : ∀ (hps : List HugePagesInfo) (acc : List (ResourceName × MemoryTable) × Nat),
        (∀ x ∈ acc.1, (x : ResourceName × MemoryTable).2.Free + x.2.Reserved = x.2.Allocatable) →
        ∀ x ∈ (hps.foldl
          (fun (acc2 : List (ResourceName × MemoryTable) × Nat) hugepage =>
            (insertKey (hugePageResourceName (hugepage.PageSize * 1024))
              { Allocatable := hugepage.NumPages * hugepage.PageSize * 1024 -
                  getResourceSystemReserved reserved node.Id
                    (hugePageResourceName (hugepage.PageSize * 1024)),
                Free := hugepage.NumPages * hugepage.PageSize * 1024 -
                  getResourceSystemReserved reserved node.Id
                    (hugePageResourceName (hugepage.PageSize * 1024)),
                Reserved := 0,
                SystemReserved := getResourceSystemReserved reserved node.Id
                  (hugePageResourceName (hugepage.PageSize * 1024)),
                TotalMemSize := hugepage.NumPages * hugepage.PageSize * 1024 } acc2.1,
             acc2.2 + hugepage.NumPages * hugepage.PageSize * 1024)) acc).1,
          (x : ResourceName × MemoryTable).2.Free + x.2.Reserved = x.2.Allocatable := by
      intro hps
      induction hps with
      | nil => intro acc hacc x hx; exact hacc x hx
      | cons hp hps2 ih =>
        intro acc hacc x hx
        rw [List.foldl_cons] at hx
        apply ih _ ?_ x hx
        intro y hy
        rcases mem_insertKey hy with hy1 | hy2
        · exact hacc y hy1
        · rw [hy2]
          simp
    exact haux node.HugePages ([], 0) (by intro x hx; simp at hx) rt h1
  · rw [h2]
    simp

theorem conservation_getDefaultMachineState (machineInfo : List MachineInfoNode)
    (reserved : SystemReservedMemory) :
    conservation (getDefaultMachineState machineInfo reserved) := by
  unfold getDefaultMachineState
  have haux : ∀ (mi : List MachineInfoNode) (acc : NodeMap), conservation acc →
      conservation (mi.foldl (fun ms node => insertKey node.Id (defaultNodeState reserved node) ms) acc) := by
    intro mi
    induction mi with
    | nil => intro acc h; exact h
    | cons node mi2 ih =>
      intro acc h
      rw [List.foldl_cons]
      apply ih
      intro e he rt hrt
      rcases mem_insertKey he with h1 | h2
      · exact h e h1 rt hrt
      · rw [h2] at hrt
        dsimp at hrt
        refine ⟨conservation_defaultNodeState reserved node rt hrt, Nat.zero_le _,
          Nat.zero_le _, Nat.zero_le _⟩
  apply haux
  intro e he
  simp at he

/-- Claim C2: starting from the default machine state, every finite
sequence of static-policy Allocate and RemoveContainer calls preserves,
for every NUMA node and memory resource class, the equation free plus
reserved equals allocatable, all values non-negative (carried by Nat,
mirroring uint64 since each subtraction the code performs is guarded). -/
theorem C2_conservation (machineInfo : List MachineInfoNode)
    (reserved : SystemReservedMemory) (ops : List PolicyOp) :
    conservation (runOps (initialPolicyState machineInfo reserved) ops).machineState := by
  have hbase : conservation (initialPolicyState machineInfo reserved).machineState :=
    conservation_getDefaultMachineState machineInfo reserved
  unfold runOps
  generalize hp : initialPolicyState machineInfo reserved = p0
  rw [hp] at hbase
  clear hp
  induction ops generalizing p0 with
  | nil => exact hbase
  | cons op ops2 ih =>
    rw [List.foldl_cons]
    exact ih _ (conservation_runOp hbase)

/-- Claim C1, settled as a code bug.  Evaluated at the failing inputs:
Allocate's requested-absolute computation writes zero unconditionally
once a reusable block of the requested type exists, returning 0 where
the claim demands max of 10 minus 3 and 0, that is 7; and the
calculateHints adjusted demand leaves the request unchanged when the
reusable block is at least as large, returning 3 where the claim
demands max of 3 minus 5 and 0, that is 0. -/
theorem C1_saturating_subtraction_code_bug :
    lookupKey resourceMemory (requestedAbsoluteOf [(resourceMemory, 10)]
      [{ NUMAAffinity := [0], Size := 3, BlockType := resourceMemory, Reused := 0 }])
      = some 0
    ∧ (0 : Nat) ≠ 10 - 3
    ∧ maskAdjustedRequested [(resourceMemory, 3)] (newBitMask [0])
        [{ NUMAAffinity := [0], Size := 5, BlockType := resourceMemory, Reused := 0 }]
        [(resourceMemory, 3)]
      = some [(resourceMemory, 3)]
    ∧ (3 : Nat) ≠ 0 := by decide

/-- Claim C6, settled as a code bug.  The extend filter does not keep
every superset of the stored affinity: isHintInGroup rejects a
candidate equal to the stored mask and any candidate whose maximum node
equals the stored mask's maximum, contradicting the source comment that
it filters all hints that do not include the current hint.  On two
fresh ten-byte nodes with stored mask zero and a five-byte request,
extendTopologyManagerHint therefore drops the candidate equal to the
stored mask and returns the two-node hint. -/
theorem C6_extend_filter_code_bug :
    isHintInGroup [0] [0] = false
    ∧ isHintInGroup [0, 2] [0, 1, 2] = false
    ∧ isHintInGroup [0] [0, 1] = true
    ∧ (extendTopologyManagerHint msC6 [(resourceMemory, 5)] (some (newBitMask [0]))).toOption
      = some { NUMANodeAffinity := some (newBitMask [0, 1]), Preferred := false } := by
  decide

/-- Claim C3, counterexample: from a snapshot in which node 0 already
carries five reserved bytes, allocating eight bytes over both nodes and
immediately removing the container does not restore the snapshot - the
release walk hands all eight bytes back to node 0 although three were
taken from node 1. -/
theorem C3_round_trip_counterexample :
    (Allocate p0C3 podC3 ctrC3 hintC3).toOption = some allocC3
    ∧ (RemoveContainer allocC3 podC3.uid ctrC3.name).machineState ≠ p0C3.machineState := by
  decide

/-- Claim C4, counterexample: after the init container of a pod
reserved ten bytes and its app container reused six of them, a second
Allocate for the same app container subtracts the reused amount from
the reusable pool a second time, shrinking it from four to zero - the
first success does not make Allocate idempotent on the reusable pool. -/
theorem C4_idempotence_counterexample :
    (runOp stC4 (PolicyOp.allocate podC4 ctrAppC4 hintC4)).memoryToReuse
      ≠ stC4.memoryToReuse := by
  decide

/-- Claim C5, counterexample: allocating pod A over nodes 0 and 1 and
then pod B over node 0 alone (the stored affinity is used unchecked
whenever it has enough free bytes) leaves node 1 assigned with group
zero-one while node 0's group is the bare singleton - the groups of the
members of node 1's group no longer match. -/
theorem C5_group_coherence_counterexample :
    groupCoherent finalC5 = false
    ∧ (lookupKey 1 finalC5).map NodeState.NumberOfAssignments = some 1
    ∧ (lookupKey 1 finalC5).map NodeState.Nodes = some [0, 1]
    ∧ (lookupKey 0 finalC5).map NodeState.Nodes = some [0] := by
  decide

/-- Claim C7, counterexample: the merge loop of getPodRequestedResources
iterates over the app-container map only, so the hugepage class
requested solely by the init container is missing from the result, where
the claim demands the value 5. -/
theorem C7_pod_aggregation_counterexample :
    lookupKey hugepages1Gi (getPodRequestedResources podC7) = none
    ∧ lookupKey resourceMemory (getPodRequestedResources podC7) = some 3 := by
  decide

/-- Claim C9, counterexample: removing an admitted container by its
container id deletes the index binding but leaves the affinity table
unchanged, because the deletion into the inner map uses the container
id as key while the table is keyed by container name. -/
theorem C9_scope_remove_counterexample :
    (scopeRemoveContainer s0C9 cidC9).podMap = []
    ∧ (scopeRemoveContainer s0C9 cidC9).podTopologyHints = s0C9.podTopologyHints
    ∧ (lookupKey ("pu" : String) s0C9.podTopologyHints).isSome = true := by
  decide

/-- Claim C8: for a pod whose QoS class is not Guaranteed, Allocate
returns success with the policy state unchanged, and both hint queries
return the Go nil map; the hint queries only read the state, which the
embedding makes explicit by their not returning a successor state. -/
theorem C8_qos_gate (p : PolicyState) (pod : Pod) (container : Container)
    (hint : TopologyHint) (h : pod.qosClass ≠ PodQOSClass.Guaranteed) :
    Allocate p pod container hint = Except.ok p
    ∧ GetTopologyHints p pod container = none
    ∧ GetPodTopologyHints p pod = none := by
  refine ⟨?_, ?_, ?_⟩
  · unfold Allocate
    rw [if_pos h]
  · unfold GetTopologyHints
    rw [if_pos h]
  · unfold GetPodTopologyHints
    rw [if_pos h]

/-- Claim C8 witness at a concrete best-effort pod. -/
theorem C8_qos_gate_witness :
    podBE.qosClass ≠ PodQOSClass.Guaranteed
    ∧ (Allocate p0C3 podBE ctrA5 hintC3 = Except.ok p0C3
      ∧ GetTopologyHints p0C3 podBE ctrA5 = none
      ∧ GetPodTopologyHints p0C3 podBE = none) :=
  ⟨by decide, C8_qos_gate p0C3 podBE ctrA5 hintC3 (by decide)⟩

/-- Claim C10: when the affinity table holds no entry for the pair of
pod uid and container name, scope GetAffinity totally and silently
returns the zero TopologyHint - no affinity, not preferred - which in
Allocate selects the default-hint path. -/
theorem C10_get_affinity_zero (s : ScopeState) (podUID containerName : String)
    (h : (lookupKey podUID s.podTopologyHints).bind (lookupKey containerName) = none) :
    GetAffinity s podUID containerName = { NUMANodeAffinity := none, Preferred := false } := by
  unfold GetAffinity
  rw [h]
  rfl

/-- Claim C10 witness at a concrete table with the pair absent. -/
theorem C10_get_affinity_zero_witness :
    (lookupKey podC3.uid s0C9.podTopologyHints).bind (lookupKey ctrC3.name) = none
    ∧ GetAffinity s0C9 podC3.uid ctrC3.name
      = { NUMANodeAffinity := none, Preferred := false } :=
  ⟨by decide, C10_get_affinity_zero s0C9 podC3.uid ctrC3.name (by decide)⟩

/-! Commutation machinery for the allocation and release walks: the two
node updates they perform are memory-blind, and the memory halves of
different resources act on disjoint inner keys. -/

theorem mmBlind_onAssign (fA : Nat → Nat) (fN : Nat → List Nat → List Nat) :
    MMBlind (onAssign fA fN) := fun _ _ => rfl

theorem mmBlind_bumpFn (maskBits : List Nat) : MMBlind (bumpFn maskBits) :=
  mmBlind_onAssign _ _

theorem mmBlind_dropFn (nodeId : Nat) : MMBlind (dropFn nodeId) :=
  mmBlind_onAssign _ _

theorem mmBlind_bumpKFn (maskBits : List Nat) (k : Nat) : MMBlind (bumpKFn maskBits k) :=
  mmBlind_onAssign _ _

theorem mmBlind_dropKFn (nodeId k : Nat) : MMBlind (dropKFn nodeId k) :=
  mmBlind_onAssign _ _

theorem mmBlind_mm {f : NodeState → NodeState} (hf : MMBlind f) (ns : NodeState) :
    (f ns).MemoryMap = ns.MemoryMap := by
  have h := hf ns ns.MemoryMap
  calc (f ns).MemoryMap = (f { ns with MemoryMap := ns.MemoryMap }).MemoryMap := rfl
    _ = ns.MemoryMap := by rw [h]

theorem lookupMem_updateKey_blind {f : NodeState → NodeState} (hf : MMBlind f)
    (j n : Nat) (r : ResourceName) (ms : NodeMap) :
    lookupMem (updateKey j f ms) n r = lookupMem ms n r := by
  unfold lookupMem
  rw [lookupKey_updateKey]
  by_cases h : n = j
  · rw [if_pos h, h]
    cases lookupKey j ms with
    | none => rfl
    | some ns =>
      dsimp
      rw [mmBlind_mm hf]
  · rw [if_neg h]

theorem updateMem_updateKey_blind {f : NodeState → NodeState} (hf : MMBlind f)
    (j n : Nat) (r : ResourceName) (g : MemoryTable → MemoryTable) (ms : NodeMap) :
    updateMem n r g (updateKey j f ms) = updateKey j f (updateMem n r g ms) := by
  by_cases h : n = j
  · subst h
    unfold updateMem
    rw [updateKey_updateKey, updateKey_updateKey]
    apply updateKey_congr_fun
    intro ns
    dsimp
    conv_rhs => rw [hf ns (updateKey r g ns.MemoryMap)]
    rw [mmBlind_mm hf]
  · unfold updateMem
    exact updateKey_comm h _ _ _

theorem reserveMemStep_updateKey_blind {f : NodeState → NodeState} (hf : MMBlind f)
    (j : Nat) (r : ResourceName) (st : Nat × NodeMap) (n : Nat) :
    reserveMemStep r (st.1, updateKey j f st.2) n
      = ((reserveMemStep r st n).1, updateKey j f (reserveMemStep r st n).2) := by
  obtain ⟨sz, ms⟩ := st
  unfold reserveMemStep
  dsimp
  by_cases h0 : sz = 0
  · rw [if_pos h0, if_pos h0]
  · rw [if_neg h0, if_neg h0, lookupMem_updateKey_blind hf]
    cases hm : lookupMem ms n r with
    | none => rfl
    | some t =>
      dsimp
      by_cases hfree : t.Free = 0
      · rw [if_pos hfree, if_pos hfree]
      · rw [if_neg hfree, if_neg hfree]
        by_cases hle : sz ≤ t.Free
        · rw [if_pos hle, if_pos hle]
          dsimp
          rw [updateMem_updateKey_blind hf]
        · rw [if_neg hle, if_neg hle]
          dsimp
          rw [updateMem_updateKey_blind hf]

theorem releaseMemStep_updateKey_blind {f : NodeState → NodeState} (hf : MMBlind f)
    (j : Nat) (r : ResourceName) (st : Nat × NodeMap) (n : Nat) :
    releaseMemStep r (st.1, updateKey j f st.2) n
      = ((releaseMemStep r st n).1, updateKey j f (releaseMemStep r st n).2) := by
  obtain ⟨sz, ms⟩ := st
  unfold releaseMemStep
  dsimp
  by_cases h0 : sz = 0
  · rw [if_pos h0, if_pos h0]
  · rw [if_neg h0, if_neg h0, lookupMem_updateKey_blind hf]
    cases hm : lookupMem ms n r with
    | none => rfl
    | some t =>
      dsimp
      by_cases hres : t.Reserved = 0
      · rw [if_pos hres, if_pos hres]
      · rw [if_neg hres, if_neg hres]
        by_cases hlt : t.Reserved < sz
        · rw [if_pos hlt, if_pos hlt]
          dsimp
          rw [updateMem_updateKey_blind hf]
        · rw [if_neg hlt, if_neg hlt]
          dsimp
          rw [updateMem_updateKey_blind hf]

theorem reserveFold_updateKey_blind {f : NodeState → NodeState} (hf : MMBlind f)
    (j : Nat) (r : ResourceName) (bits : List Nat) :
    ∀ st : Nat × NodeMap,
      bits.foldl (reserveMemStep r) (st.1, updateKey j f st.2)
        = ((bits.foldl (reserveMemStep r) st).1,
           updateKey j f (bits.foldl (reserveMemStep r) st).2) := by
  induction bits with
  | nil => intro st; rfl
  | cons n bs ih =>
    intro st
    rw [List.foldl_cons, List.foldl_cons, reserveMemStep_updateKey_blind hf]
    exact ih (reserveMemStep r st n)

theorem releaseFold_updateKey_blind {f : NodeState → NodeState} (hf : MMBlind f)
    (j : Nat) (r : ResourceName) (bits : List Nat) :
    ∀ st : Nat × NodeMap,
      bits.foldl (releaseMemStep r) (st.1, updateKey j f st.2)
        = ((bits.foldl (releaseMemStep r) st).1,
           updateKey j f (bits.foldl (releaseMemStep r) st).2) := by
  induction bits with
  | nil => intro st; rfl
  | cons n bs ih =>
    intro st
    rw [List.foldl_cons, List.foldl_cons, releaseMemStep_updateKey_blind hf]
    exact ih (releaseMemStep r st n)

theorem reserveMulti_updateKey_blind {f : NodeState → NodeState} (hf : MMBlind f)
    (j : Nat) (bits : List Nat) (ras : List (ResourceName × Nat)) :
    ∀ ms : NodeMap,
      reserveMulti bits ras (updateKey j f ms) = updateKey j f (reserveMulti bits ras ms) := by
  induction ras with
  | nil => intro ms; rfl
  | cons rq rest ih =>
    intro ms
    unfold reserveMulti
    rw [List.foldl_cons, List.foldl_cons]
    have h := reserveFold_updateKey_blind hf j rq.1 bits (rq.2, ms)
    dsimp at h
    rw [h]
    exact ih _

theorem releaseMulti_updateKey_blind {f : NodeState → NodeState} (hf : MMBlind f)
    (j : Nat) (bits : List Nat) (ras : List (ResourceName × Nat)) :
    ∀ ms : NodeMap,
      releaseMulti bits ras (updateKey j f ms) = updateKey j f (releaseMulti bits ras ms) := by
  induction ras with
  | nil => intro ms; rfl
  | cons rq rest ih =>
    intro ms
    unfold releaseMulti
    rw [List.foldl_cons, List.foldl_cons]
    have h := releaseFold_updateKey_blind hf j rq.1 bits (rq.2, ms)
    dsimp at h
    rw [h]
    exact ih _

theorem reserveMulti_mapNodes_blind {f : Nat → NodeState → NodeState}
    (hf : ∀ j, MMBlind (f j)) (bits : List Nat) (ras : List (ResourceName × Nat))
    (bits2 : List Nat) :
    ∀ ms : NodeMap,
      reserveMulti bits ras (mapNodes bits2 f ms) = mapNodes bits2 f (reserveMulti bits ras ms) := by
  induction bits2 with
  | nil => intro ms; rfl
  | cons j rest ih =>
    intro ms
    unfold mapNodes
    rw [List.foldl_cons, List.foldl_cons]
    have h1 : reserveMulti bits ras (rest.foldl (fun m n => updateKey n (f n) m)
        (updateKey j (f j) ms)) = rest.foldl (fun m n => updateKey n (f n) m)
        (reserveMulti bits ras (updateKey j (f j) ms)) := ih (updateKey j (f j) ms)
    rw [h1, reserveMulti_updateKey_blind (hf j)]

theorem releaseMulti_mapNodes_blind {f : Nat → NodeState → NodeState}
    (hf : ∀ j, MMBlind (f j)) (bits : List Nat) (ras : List (ResourceName × Nat))
    (bits2 : List Nat) :
    ∀ ms : NodeMap,
      releaseMulti bits ras (mapNodes bits2 f ms) = mapNodes bits2 f (releaseMulti bits ras ms) := by
  induction bits2 with
  | nil => intro ms; rfl
  | cons j rest ih =>
    intro ms
    unfold mapNodes
    rw [List.foldl_cons, List.foldl_cons]
    have h1 : releaseMulti bits ras (rest.foldl (fun m n => updateKey n (f n) m)
        (updateKey j (f j) ms)) = rest.foldl (fun m n => updateKey n (f n) m)
        (releaseMulti bits ras (updateKey j (f j) ms)) := ih (updateKey j (f j) ms)
    rw [h1, releaseMulti_updateKey_blind (hf j)]

theorem releaseMulti_mapNodesIter_blind {f : Nat → NodeState → NodeState}
    (hf : ∀ j, MMBlind (f j)) (bits : List Nat) (ras : List (ResourceName × Nat))
    (bits2 : List Nat) (k : Nat) :
    ∀ ms : NodeMap,
      releaseMulti bits ras (mapNodesIter bits2 f k ms)
        = mapNodesIter bits2 f k (releaseMulti bits ras ms) := by
  induction k with
  | zero => intro ms; rfl
  | succ k2 ih =>
    intro ms
    unfold mapNodesIter
    rw [ih, releaseMulti_mapNodes_blind hf]

/-! Pointwise evaluation laws for the memory steps and the algebra of
updateMem. -/

theorem lookupMem_updateMem_self (n : Nat) (r : ResourceName)
    (g : MemoryTable → MemoryTable) (ms : NodeMap) :
    lookupMem (updateMem n r g ms) n r = (lookupMem ms n r).map g := by
  unfold lookupMem updateMem
  rw [lookupKey_updateKey, if_pos rfl]
  cases lookupKey n ms with
  | none => rfl
  | some ns =>
    dsimp
    rw [lookupKey_updateKey, if_pos rfl]

theorem lookupMem_updateMem_ne {n2 n : Nat} {r2 r : ResourceName} (hd : n2 ≠ n ∨ r2 ≠ r)
    (g : MemoryTable → MemoryTable) (ms : NodeMap) :
    lookupMem (updateMem n r g ms) n2 r2 = lookupMem ms n2 r2 := by
  unfold lookupMem updateMem
  rw [lookupKey_updateKey]
  by_cases hn : n2 = n
  · rw [if_pos hn]
    have hr : r2 ≠ r := hd.resolve_left (fun h => h hn)
    subst hn
    cases lookupKey n2 ms with
    | none => rfl
    | some ns =>
      dsimp
      rw [lookupKey_updateKey, if_neg hr]
  · rw [if_neg hn]

theorem updateMem_updateMem (n : Nat) (r : ResourceName)
    (g h : MemoryTable → MemoryTable) (ms : NodeMap) :
    updateMem n r g (updateMem n r h ms) = updateMem n r (fun t => g (h t)) ms := by
  unfold updateMem
  rw [updateKey_updateKey]
  apply updateKey_congr_fun
  intro ns
  dsimp
  rw [updateKey_updateKey]

theorem updateMem_id {n : Nat} {r : ResourceName} {g : MemoryTable → MemoryTable}
    {ms : NodeMap} (h : ∀ t, lookupMem ms n r = some t → g t = t) :
    updateMem n r g ms = ms := by
  unfold updateMem
  apply updateKey_id
  intro ns hns
  have h2 : updateKey r g ns.MemoryMap = ns.MemoryMap := by
    apply updateKey_id
    intro t ht
    exact h t (by unfold lookupMem; rw [hns]; exact ht)
  rw [h2]

theorem updateMem_comm {n j : Nat} {r r2 : ResourceName} (hd : n ≠ j ∨ r ≠ r2)
    (g h : MemoryTable → MemoryTable) (ms : NodeMap) :
    updateMem n r g (updateMem j r2 h ms) = updateMem j r2 h (updateMem n r g ms) := by
  by_cases hn : n = j
  · have hr : r ≠ r2 := hd.resolve_left (fun hc => hc hn)
    subst hn
    unfold updateMem
    rw [updateKey_updateKey, updateKey_updateKey]
    apply updateKey_congr_fun
    intro ns
    dsimp
    rw [updateKey_comm hr]
  · unfold updateMem
    exact updateKey_comm hn _ _ _

theorem reserveMemStep_zero (r : ResourceName) (ms : NodeMap) (n : Nat) :
    reserveMemStep r (0, ms) n = (0, ms) := rfl

theorem releaseMemStep_zero (r : ResourceName) (ms : NodeMap) (n : Nat) :
    releaseMemStep r (0, ms) n = (0, ms) := rfl

theorem reserveMemStep_none {sz : Nat} {ms : NodeMap} {n : Nat} {r : ResourceName}
    (h0 : sz ≠ 0) (hm : lookupMem ms n r = none) :
    reserveMemStep r (sz, ms) n = (sz, ms) := by
  unfold reserveMemStep
  dsimp
  rw [if_neg h0, hm]

theorem reserveMemStep_skip {sz : Nat} {ms : NodeMap} {n : Nat} {r : ResourceName}
    {t : MemoryTable} (h0 : sz ≠ 0) (hm : lookupMem ms n r = some t) (hf : t.Free = 0) :
    reserveMemStep r (sz, ms) n = (sz, ms) := by
  unfold reserveMemStep
  dsimp
  rw [if_neg h0, hm]
  dsimp
  rw [if_pos hf]

theorem reserveMemStep_take {sz : Nat} {ms : NodeMap} {n : Nat} {r : ResourceName}
    {t : MemoryTable} (h0 : sz ≠ 0) (hm : lookupMem ms n r = some t) (hf : t.Free ≠ 0)
    (hle : sz ≤ t.Free) :
    reserveMemStep r (sz, ms) n
      = (0, updateMem n r
          (fun tt => { tt with Reserved := tt.Reserved + sz, Free := tt.Free - sz }) ms) := by
  unfold reserveMemStep
  dsimp
  rw [if_neg h0, hm]
  dsimp
  rw [if_neg hf, if_pos hle]

theorem reserveMemStep_drain {sz : Nat} {ms : NodeMap} {n : Nat} {r : ResourceName}
    {t : MemoryTable} (h0 : sz ≠ 0) (hm : lookupMem ms n r = some t) (hf : t.Free ≠ 0)
    (hgt : ¬sz ≤ t.Free) :
    reserveMemStep r (sz, ms) n
      = (sz - t.Free, updateMem n r
          (fun tt => { tt with Reserved := tt.Reserved + tt.Free, Free := 0 }) ms) := by
  unfold reserveMemStep
  dsimp
  rw [if_neg h0, hm]
  dsimp
  rw [if_neg hf, if_neg hgt]

theorem releaseMemStep_none {sz : Nat} {ms : NodeMap} {n : Nat} {r : ResourceName}
    (h0 : sz ≠ 0) (hm : lookupMem ms n r = none) :
    releaseMemStep r (sz, ms) n = (sz, ms) := by
  unfold releaseMemStep
  dsimp
  rw [if_neg h0, hm]

theorem releaseMemStep_skip {sz : Nat} {ms : NodeMap} {n : Nat} {r : ResourceName}
    {t : MemoryTable} (h0 : sz ≠ 0) (hm : lookupMem ms n r = some t) (hres : t.Reserved = 0) :
    releaseMemStep r (sz, ms) n = (sz, ms) := by
  unfold releaseMemStep
  dsimp
  rw [if_neg h0, hm]
  dsimp
  rw [if_pos hres]

theorem releaseMemStep_spill {sz : Nat} {ms : NodeMap} {n : Nat} {r : ResourceName}
    {t : MemoryTable} (h0 : sz ≠ 0) (hm : lookupMem ms n r = some t) (hres : t.Reserved ≠ 0)
    (hlt : t.Reserved < sz) :
    releaseMemStep r (sz, ms) n
      = (sz - t.Reserved, updateMem n r
          (fun tt => { tt with Free := tt.Free + tt.Reserved, Reserved := 0 }) ms) := by
  unfold releaseMemStep
  dsimp
  rw [if_neg h0, hm]
  dsimp
  rw [if_neg hres, if_pos hlt]

theorem releaseMemStep_full {sz : Nat} {ms : NodeMap} {n : Nat} {r : ResourceName}
    {t : MemoryTable} (h0 : sz ≠ 0) (hm : lookupMem ms n r = some t) (hres : t.Reserved ≠ 0)
    (hge : ¬t.Reserved < sz) :
    releaseMemStep r (sz, ms) n
      = (0, updateMem n r
          (fun tt => { tt with Free := tt.Free + sz, Reserved := tt.Reserved - sz }) ms) := by
  unfold releaseMemStep
  dsimp
  rw [if_neg h0, hm]
  dsimp
  rw [if_neg hres, if_neg hge]

theorem reserveFold_zero (r : ResourceName) :
    ∀ (bits : List Nat) (ms : NodeMap), bits.foldl (reserveMemStep r) (0, ms) = (0, ms) := by
  intro bits
  induction bits with
  | nil => intro ms; rfl
  | cons n bs ih =>
    intro ms
    rw [List.foldl_cons, reserveMemStep_zero]
    exact ih ms

theorem releaseFold_zero (r : ResourceName) :
    ∀ (bits : List Nat) (ms : NodeMap), bits.foldl (releaseMemStep r) (0, ms) = (0, ms) := by
  intro bits
  induction bits with
  | nil => intro ms; rfl
  | cons n bs ih =>
    intro ms
    rw [List.foldl_cons, releaseMemStep_zero]
    exact ih ms

theorem reserveMemStep_snd_cases (r : ResourceName) (st : Nat × NodeMap) (n : Nat) :
    (reserveMemStep r st n).2 = st.2
    ∨ ∃ g, (reserveMemStep r st n).2 = updateMem n r g st.2 := by
  obtain ⟨sz, ms⟩ := st
  unfold reserveMemStep
  dsimp
  by_cases h0 : sz = 0
  · rw [if_pos h0]
    left
    rfl
  · rw [if_neg h0]
    cases lookupMem ms n r with
    | none => left; rfl
    | some t =>
      dsimp
      by_cases hf : t.Free = 0
      · rw [if_pos hf]
        left
        rfl
      · rw [if_neg hf]
        by_cases hle : sz ≤ t.Free
        · rw [if_pos hle]
          right
          exact ⟨_, rfl⟩
        · rw [if_neg hle]
          right
          exact ⟨_, rfl⟩

theorem releaseMemStep_snd_cases (r : ResourceName) (st : Nat × NodeMap) (n : Nat) :
    (releaseMemStep r st n).2 = st.2
    ∨ ∃ g, (releaseMemStep r st n).2 = updateMem n r g st.2 := by
  obtain ⟨sz, ms⟩ := st
  unfold releaseMemStep
  dsimp
  by_cases h0 : sz = 0
  · rw [if_pos h0]
    left
    rfl
  · rw [if_neg h0]
    cases lookupMem ms n r with
    | none => left; rfl
    | some t =>
      dsimp
      by_cases hres : t.Reserved = 0
      · rw [if_pos hres]
        left
        rfl
      · rw [if_neg hres]
        by_cases hlt : t.Reserved < sz
        · rw [if_pos hlt]
          right
          exact ⟨_, rfl⟩
        · rw [if_neg hlt]
          right
          exact ⟨_, rfl⟩

theorem lookupMem_reserveFold_not_mem {j : Nat} (r r2 : ResourceName) :
    ∀ (bits : List Nat), j ∉ bits → ∀ st : Nat × NodeMap,
      lookupMem (bits.foldl (reserveMemStep r) st).2 j r2 = lookupMem st.2 j r2 := by
  intro bits
  induction bits with
  | nil => intro _ st; rfl
  | cons n bs ih =>
    intro hj st
    have hjn : j ≠ n := fun he => hj (List.mem_cons.mpr (Or.inl he))
    have hjbs : j ∉ bs := fun he => hj (List.mem_cons.mpr (Or.inr he))
    rw [List.foldl_cons, ih hjbs]
    rcases reserveMemStep_snd_cases r st n with h1 | ⟨g, h2⟩
    · rw [h1]
    · rw [h2, lookupMem_updateMem_ne (Or.inl hjn)]

theorem reserveMemStep_updateMem_ne {j n : Nat} {r r2 : ResourceName}
    (hd : n ≠ j ∨ r ≠ r2) (g : MemoryTable → MemoryTable) (st : Nat × NodeMap) :
    reserveMemStep r (st.1, updateMem j r2 g st.2) n
      = ((reserveMemStep r st n).1, updateMem j r2 g (reserveMemStep r st n).2) := by
  obtain ⟨sz, ms⟩ := st
  unfold reserveMemStep
  dsimp
  by_cases h0 : sz = 0
  · rw [if_pos h0, if_pos h0]
  · rw [if_neg h0, if_neg h0,
      lookupMem_updateMem_ne (hd.imp (fun h => h) (fun h => h)) g ms]
    cases hm : lookupMem ms n r with
    | none => rfl
    | some t =>
      dsimp
      by_cases hf : t.Free = 0
      · rw [if_pos hf, if_pos hf]
      · rw [if_neg hf, if_neg hf]
        by_cases hle : sz ≤ t.Free
        · rw [if_pos hle, if_pos hle]
          dsimp
          rw [updateMem_comm hd]
        · rw [if_neg hle, if_neg hle]
          dsimp
          rw [updateMem_comm hd]

theorem reserveFold_updateMem_ne {j : Nat} {r r2 : ResourceName}
    (g : MemoryTable → MemoryTable) :
    ∀ (bits : List Nat), (∀ n ∈ bits, n ≠ j ∨ r ≠ r2) → ∀ st : Nat × NodeMap,
      bits.foldl (reserveMemStep r) (st.1, updateMem j r2 g st.2)
        = ((bits.foldl (reserveMemStep r) st).1,
           updateMem j r2 g (bits.foldl (reserveMemStep r) st).2) := by
  intro bits
  induction bits with
  | nil => intro _ st; rfl
  | cons n bs ih =>
    intro hd st
    rw [List.foldl_cons, List.foldl_cons,
      reserveMemStep_updateMem_ne (hd n (List.mem_cons_self n bs)) g st]
    exact ih (fun m hm => hd m (List.mem_cons_of_mem n hm)) (reserveMemStep r st n)

theorem updateMem_take_inverse {n : Nat} {r : ResourceName} {ms : NodeMap} {t : MemoryTable}
    {sz : Nat} (hm : lookupMem ms n r = some t) (ht0 : t.Reserved = 0) (hle : sz ≤ t.Free) :
    updateMem n r (fun tt => { tt with Free := tt.Free + sz, Reserved := tt.Reserved - sz })
      (updateMem n r
        (fun tt => { tt with Reserved := tt.Reserved + sz, Free := tt.Free - sz }) ms)
      = ms := by
  rw [updateMem_updateMem]
  apply updateMem_id
  intro t2 ht2
  rw [hm] at ht2
  injection ht2 with ht3
  subst ht3
  obtain ⟨a, fr, res, sysr, tot⟩ := t
  dsimp at ht0 hle ⊢
  simp only [MemoryTable.mk.injEq, true_and, and_true]
  omega

theorem updateMem_drain_inverse {n : Nat} {r : ResourceName} {ms : NodeMap} {t : MemoryTable}
    (hm : lookupMem ms n r = some t) (ht0 : t.Reserved = 0) :
    updateMem n r (fun tt => { tt with Free := tt.Free + tt.Reserved, Reserved := 0 })
      (updateMem n r
        (fun tt => { tt with Reserved := tt.Reserved + tt.Free, Free := 0 }) ms)
      = ms := by
  rw [updateMem_updateMem]
  apply updateMem_id
  intro t2 ht2
  rw [hm] at ht2
  injection ht2 with ht3
  subst ht3
  obtain ⟨a, fr, res, sysr, tot⟩ := t
  dsimp at ht0 ⊢
  simp only [MemoryTable.mk.injEq, true_and, and_true]
  omega

theorem mapNodes_nil (f : Nat → NodeState → NodeState) (ms : NodeMap) :
    mapNodes [] f ms = ms := rfl

theorem mapNodes_cons (n : Nat) (bs : List Nat) (f : Nat → NodeState → NodeState)
    (ms : NodeMap) : mapNodes (n :: bs) f ms = mapNodes bs f (updateKey n (f n) ms) := rfl

theorem mapNodes_updateKey_comm {f : Nat → NodeState → NodeState} {j : Nat}
    (g : NodeState → NodeState) :
    ∀ (bits : List Nat), j ∉ bits → ∀ ms,
      mapNodes bits f (updateKey j g ms) = updateKey j g (mapNodes bits f ms) := by
  intro bits
  induction bits with
  | nil => intro _ ms; rfl
  | cons n bs ih =>
    intro hj ms
    have hne : n ≠ j := fun he => hj (List.mem_cons.mpr (Or.inl he.symm))
    have hjbs : j ∉ bs := fun he => hj (List.mem_cons.mpr (Or.inr he))
    rw [mapNodes_cons, mapNodes_cons, updateKey_comm hne, ih hjbs]

theorem mapNodes_congr {f g : Nat → NodeState → NodeState} (h : ∀ n v, f n v = g n v) :
    ∀ (bits : List Nat) (ms : NodeMap), mapNodes bits f ms = mapNodes bits g ms := by
  intro bits
  induction bits with
  | nil => intro ms; rfl
  | cons n bs ih =>
    intro ms
    rw [mapNodes_cons, mapNodes_cons, updateKey_congr_fun (h n), ih]

theorem mapNodes_mapNodes {f g : Nat → NodeState → NodeState} :
    ∀ (bits : List Nat), bits.Nodup → ∀ ms,
      mapNodes bits g (mapNodes bits f ms) = mapNodes bits (fun n v => g n (f n v)) ms := by
  intro bits
  induction bits with
  | nil => intro _ ms; rfl
  | cons n bs ih =>
    intro hnd ms
    rw [List.nodup_cons] at hnd
    rw [mapNodes_cons, mapNodes_cons, mapNodes_cons,
      ← mapNodes_updateKey_comm (g n) bs hnd.1, updateKey_updateKey, ih hnd.2]

theorem mapNodes_id {f : Nat → NodeState → NodeState} :
    ∀ (bits : List Nat) (ms : NodeMap),
      (∀ n ∈ bits, ∀ v, lookupKey n ms = some v → f n v = v) → mapNodes bits f ms = ms := by
  intro bits
  induction bits with
  | nil => intro ms _; rfl
  | cons n bs ih =>
    intro ms h
    rw [mapNodes_cons, updateKey_id (h n (List.mem_cons_self n bs))]
    exact ih ms (fun m hm => h m (List.mem_cons_of_mem n hm))

theorem bumpKFn_zero (mb : List Nat) (v : NodeState) : bumpKFn mb 0 v = v := rfl

theorem dropKFn_zero (j : Nat) (v : NodeState) : dropKFn j 0 v = v := rfl

theorem bumpK_bump (mb : List Nat) (k : Nat) (v : NodeState) :
    bumpKFn mb k (bumpFn mb v) = bumpKFn mb (k + 1) v := by
  obtain ⟨a, mm, nodes⟩ := v
  unfold bumpKFn bumpFn onAssign
  dsimp
  rw [ite_self, Nat.add_assoc a 1 k, Nat.add_comm 1 k]

theorem dropK_drop (j k : Nat) (v : NodeState) :
    dropKFn j k (dropFn j v) = dropKFn j (k + 1) v := by
  obtain ⟨a, mm, nodes⟩ := v
  unfold dropKFn dropFn onAssign
  dsimp
  rw [Nat.sub_sub, Nat.add_comm 1 k]
  by_cases hk : k = 0
  · subst hk
    rw [if_pos rfl]
    by_cases h1 : a - 1 = 0
    · rw [if_pos h1, if_pos (show a ≤ 0 + 1 by omega)]
    · rw [if_neg h1, if_neg (show ¬ a ≤ 0 + 1 by omega)]
  · rw [if_neg hk]
    by_cases h2 : a - 1 ≤ k
    · rw [if_pos h2, if_pos (show a ≤ k + 1 by omega)]
    · rw [if_neg h2, if_neg (show ¬ a - 1 = 0 by omega),
        if_neg (show ¬ a ≤ k + 1 by omega)]

theorem mapNodesIter_bump_char (mb : List Nat) {bits : List Nat} (hnd : bits.Nodup) :
    ∀ (k : Nat) (ms : NodeMap),
      mapNodesIter bits (fun _ => bumpFn mb) k ms
        = mapNodes bits (fun _ => bumpKFn mb k) ms := by
  intro k
  induction k with
  | zero =>
    intro ms
    rw [show mapNodesIter bits (fun _ => bumpFn mb) 0 ms = ms from rfl]
    exact (mapNodes_id bits ms (fun n _ v _ => bumpKFn_zero mb v)).symm
  | succ k2 ih =>
    intro ms
    rw [show mapNodesIter bits (fun _ => bumpFn mb) (k2 + 1) ms
        = mapNodesIter bits (fun _ => bumpFn mb) k2
            (mapNodes bits (fun _ => bumpFn mb) ms) from rfl,
      ih, mapNodes_mapNodes bits hnd]
    exact mapNodes_congr (fun n v => bumpK_bump mb k2 v) bits ms

theorem mapNodesIter_drop_char {bits : List Nat} (hnd : bits.Nodup) :
    ∀ (k : Nat) (ms : NodeMap),
      mapNodesIter bits (fun n => dropFn n) k ms
        = mapNodes bits (fun n => dropKFn n k) ms := by
  intro k
  induction k with
  | zero =>
    intro ms
    rw [show mapNodesIter bits (fun n => dropFn n) 0 ms = ms from rfl]
    exact (mapNodes_id bits ms (fun n _ v _ => dropKFn_zero n v)).symm
  | succ k2 ih =>
    intro ms
    rw [show mapNodesIter bits (fun n => dropFn n) (k2 + 1) ms
        = mapNodesIter bits (fun n => dropFn n) k2
            (mapNodes bits (fun n => dropFn n) ms) from rfl,
      ih, mapNodes_mapNodes bits hnd]
    exact mapNodes_congr (fun n v => dropK_drop n k2 v) bits ms

/-- Assignment restore: k drops after k bumps put a fresh node back. -/
theorem drop_bump_restore {mb : List Nat} {bits : List Nat} (hnd : bits.Nodup) (k : Nat)
    (ms : NodeMap)
    (hfresh : ∀ n ∈ bits, ∀ v, lookupKey n ms = some v →
      v.NumberOfAssignments = 0 ∧ v.Nodes = [n]) :
    mapNodesIter bits (fun n => dropFn n) k
      (mapNodesIter bits (fun _ => bumpFn mb) k ms) = ms := by
  rw [mapNodesIter_bump_char mb hnd, mapNodesIter_drop_char hnd, mapNodes_mapNodes bits hnd]
  apply mapNodes_id
  intro n hn v hv
  obtain ⟨h0, hnodes⟩ := hfresh n hn v hv
  obtain ⟨a, mm, nodes⟩ := v
  dsimp at h0 hnodes
  subst h0
  subst hnodes
  show dropKFn n k (bumpKFn mb k ⟨0, mm, [n]⟩) = ⟨0, mm, [n]⟩
  cases k with
  | zero => rfl
  | succ k2 =>
    unfold bumpKFn dropKFn onAssign
    dsimp
    rw [if_pos (show 0 + (k2 + 1) ≤ k2 + 1 by omega)]
    have h1 : 0 + (k2 + 1) - (k2 + 1) = 0 := by omega
    rw [h1]

/-! Decomposition of the combined walks into their memory halves and a
pass of node updates. -/

theorem allocFold_decomp (mb : List Nat) (r : ResourceName) :
    ∀ (bits : List Nat) (st : Nat × NodeMap),
      bits.foldl (allocNodeStep mb r) st
        = ((bits.foldl (reserveMemStep r) st).1,
           mapNodes bits (fun _ => bumpFn mb) (bits.foldl (reserveMemStep r) st).2) := by
  intro bits
  induction bits with
  | nil => intro st; rfl
  | cons n bs ih =>
    intro st
    rw [List.foldl_cons, List.foldl_cons]
    have hstep : allocNodeStep mb r st n
        = reserveMemStep r (st.1, updateKey n (bumpFn mb) st.2) n := rfl
    rw [hstep, reserveMemStep_updateKey_blind (mmBlind_bumpFn mb), ih,
      reserveFold_updateKey_blind (mmBlind_bumpFn mb) n r bs (reserveMemStep r st n),
      mapNodes_cons]

theorem dropFn_eq (j : Nat) (ns : NodeState) :
    (let a := ns.NumberOfAssignments - 1
     if a = 0 then { ns with NumberOfAssignments := a, Nodes := [j] }
     else { ns with NumberOfAssignments := a }) = dropFn j ns := by
  unfold dropFn onAssign
  dsimp
  by_cases h : ns.NumberOfAssignments - 1 = 0
  · rw [if_pos h, if_pos h]
  · rw [if_neg h, if_neg h]

theorem removeNodeStep_eq (r : ResourceName) (st : Nat × NodeMap) (n : Nat) :
    removeNodeStep r st n = releaseMemStep r (st.1, updateKey n (dropFn n) st.2) n := by
  unfold removeNodeStep
  rw [updateKey_congr_fun (dropFn_eq n)]

theorem removeFold_decomp (r : ResourceName) :
    ∀ (bits : List Nat) (st : Nat × NodeMap),
      bits.foldl (removeNodeStep r) st
        = ((bits.foldl (releaseMemStep r) st).1,
           mapNodes bits (fun n => dropFn n) (bits.foldl (releaseMemStep r) st).2) := by
  intro bits
  induction bits with
  | nil => intro st; rfl
  | cons n bs ih =>
    intro st
    rw [List.foldl_cons, List.foldl_cons, removeNodeStep_eq,
      releaseMemStep_updateKey_blind (mmBlind_dropFn n), ih,
      releaseFold_updateKey_blind (mmBlind_dropFn n) n r bs (releaseMemStep r st n),
      mapNodes_cons]

theorem applyFold_snd (mb : List Nat) (rr : List (ResourceName × Nat)) :
    ∀ (ras : List (ResourceName × Nat)) (b : List Block) (ms : NodeMap),
      (ras.foldl (applyStep mb rr) (b, ms)).2
        = mapNodesIter mb (fun _ => bumpFn mb) ras.length (reserveMulti mb ras ms) := by
  intro ras
  induction ras with
  | nil => intro b ms; rfl
  | cons rq rest ih =>
    intro b ms
    rw [List.foldl_cons]
    have hstep : applyStep mb rr (b, ms) rq
        = (b ++ [⟨mb, rq.2, rq.1, lookupD rr rq.1 0 - rq.2⟩],
           (mb.foldl (allocNodeStep mb rq.1) (rq.2, ms)).2) := rfl
    rw [hstep, ih]
    have hwd := congrArg Prod.snd (allocFold_decomp mb rq.1 mb (rq.2, ms))
    dsimp at hwd
    rw [hwd, reserveMulti_mapNodes_blind (fun j => mmBlind_bumpFn mb) mb rest mb]
    have hiter : ∀ X : NodeMap,
        mapNodesIter mb (fun _ => bumpFn mb) rest.length (mapNodes mb (fun _ => bumpFn mb) X)
          = mapNodesIter mb (fun _ => bumpFn mb) (rest.length + 1) X := fun X => rfl
    rw [hiter]
    rfl

theorem applyFold_fst (mb : List Nat) (rr : List (ResourceName × Nat)) :
    ∀ (ras : List (ResourceName × Nat)) (b : List Block) (ms : NodeMap),
      (ras.foldl (applyStep mb rr) (b, ms)).1
        = b ++ ras.map (fun rq =>
            (⟨mb, rq.2, rq.1, lookupD rr rq.1 0 - rq.2⟩ : Block)) := by
  intro ras
  induction ras with
  | nil => intro b ms; simp
  | cons rq rest ih =>
    intro b ms
    rw [List.foldl_cons]
    have hstep : applyStep mb rr (b, ms) rq
        = (b ++ [⟨mb, rq.2, rq.1, lookupD rr rq.1 0 - rq.2⟩],
           (mb.foldl (allocNodeStep mb rq.1) (rq.2, ms)).2) := rfl
    rw [hstep, ih]
    simp

theorem removeBlocksFold_char (mb : List Nat) (rr : List (ResourceName × Nat)) :
    ∀ (ras : List (ResourceName × Nat)) (ms : NodeMap),
      ((ras.map (fun rq =>
          (⟨mb, rq.2, rq.1, lookupD rr rq.1 0 - rq.2⟩ : Block))).foldl (fun ms2 b =>
        (b.NUMAAffinity.foldl (removeNodeStep b.BlockType) (b.Size, ms2)).2) ms)
        = mapNodesIter mb (fun n => dropFn n) ras.length (releaseMulti mb ras ms) := by
  intro ras
  induction ras with
  | nil => intro ms; rfl
  | cons rq rest ih =>
    intro ms
    rw [List.map_cons, List.foldl_cons]
    dsimp
    rw [ih]
    have hwd := congrArg Prod.snd (removeFold_decomp rq.1 mb (rq.2, ms))
    dsimp at hwd
    rw [hwd, releaseMulti_mapNodes_blind (fun j => mmBlind_dropFn j) mb rest mb]
    rfl

/-- The release walk of one resource undoes the reservation walk of the
same resource and size, provided the mask nodes carry no reserved bytes
for that resource beforehand.  The walks hand remaining demand down the
node list identically, so each node gives back exactly what it took. -/
theorem release_reserve_inverse (r : ResourceName) :
    ∀ (bits : List Nat), bits.Nodup →
    ∀ (sz : Nat) (ms : NodeMap),
      (∀ n ∈ bits, ∀ t, lookupMem ms n r = some t → t.Reserved = 0) →
      (bits.foldl (releaseMemStep r)
        (sz, (bits.foldl (reserveMemStep r) (sz, ms)).2)).2 = ms := by
  intro bits
  induction bits with
  | nil =>
    intro _ sz ms _
    rfl
  | cons n bs ih =>
    intro hnd sz ms hres
    rw [List.nodup_cons] at hnd
    obtain ⟨hn, hnd2⟩ := hnd
    have hresn := hres n (List.mem_cons_self n bs)
    have hresbs : ∀ m ∈ bs, ∀ t, lookupMem ms m r = some t → t.Reserved = 0 :=
      fun m hm => hres m (List.mem_cons_of_mem n hm)
    rw [List.foldl_cons, List.foldl_cons]
    by_cases h0 : sz = 0
    · subst h0
      rw [reserveMemStep_zero, reserveFold_zero, releaseMemStep_zero, releaseFold_zero]
    · cases hm : lookupMem ms n r with
      | none =>
        rw [reserveMemStep_none h0 hm]
        have hx : lookupMem (bs.foldl (reserveMemStep r) (sz, ms)).2 n r = none := by
          rw [lookupMem_reserveFold_not_mem r r bs hn (sz, ms), hm]
        rw [releaseMemStep_none h0 hx]
        exact ih hnd2 sz ms hresbs
      | some t =>
        have ht0 : t.Reserved = 0 := hresn t hm
        by_cases hf : t.Free = 0
        · rw [reserveMemStep_skip h0 hm hf]
          have hx : lookupMem (bs.foldl (reserveMemStep r) (sz, ms)).2 n r = some t := by
            rw [lookupMem_reserveFold_not_mem r r bs hn (sz, ms), hm]
          rw [releaseMemStep_skip h0 hx ht0]
          exact ih hnd2 sz ms hresbs
        · by_cases hle : sz ≤ t.Free
          · rw [reserveMemStep_take h0 hm hf hle, reserveFold_zero]
            have hx : lookupMem
                (updateMem n r (fun tt =>
                  { tt with Reserved := tt.Reserved + sz, Free := tt.Free - sz }) ms) n r
                = some { t with Reserved := t.Reserved + sz, Free := t.Free - sz } := by
              rw [lookupMem_updateMem_self, hm]
              rfl
            have hres2 :
                ({ t with Reserved := t.Reserved + sz, Free := t.Free - sz }
                  : MemoryTable).Reserved ≠ 0 := by
              dsimp
              omega
            have hge :
                ¬({ t with Reserved := t.Reserved + sz, Free := t.Free - sz }
                  : MemoryTable).Reserved < sz := by
              dsimp
              omega
            rw [releaseMemStep_full h0 hx hres2 hge, updateMem_take_inverse hm ht0 hle,
              releaseFold_zero]
          · rw [reserveMemStep_drain h0 hm hf hle]
            have hx : lookupMem (bs.foldl (reserveMemStep r)
                (sz - t.Free, updateMem n r (fun tt =>
                  { tt with Reserved := tt.Reserved + tt.Free, Free := 0 }) ms)).2 n r
                = some { t with Reserved := t.Reserved + t.Free, Free := 0 } := by
              rw [lookupMem_reserveFold_not_mem r r bs hn, lookupMem_updateMem_self, hm]
              rfl
            have hres2 :
                ({ t with Reserved := t.Reserved + t.Free, Free := 0 }
                  : MemoryTable).Reserved ≠ 0 := by
              dsimp
              omega
            have hlt :
                ({ t with Reserved := t.Reserved + t.Free, Free := 0 }
                  : MemoryTable).Reserved < sz := by
              dsimp
              omega
            rw [releaseMemStep_spill h0 hx hres2 hlt]
            have hproj :
                ({ t with Reserved := t.Reserved + t.Free, Free := 0 }
                  : MemoryTable).Reserved = t.Free := by
              dsimp
              omega
            rw [hproj]
            have h2 := @reserveFold_updateMem_ne n r r
              (fun tt => { tt with Free := tt.Free + tt.Reserved, Reserved := 0 }) bs
              (fun m hm2 => Or.inl (fun he => hn (he ▸ hm2)))
              (sz - t.Free, updateMem n r (fun tt =>
                { tt with Reserved := tt.Reserved + tt.Free, Free := 0 }) ms)
            dsimp at h2
            have h3 := congrArg Prod.snd h2
            dsimp at h3
            rw [← h3, updateMem_drain_inverse hm ht0]
            exact ih hnd2 (sz - t.Free) ms hresbs

theorem releaseMemStep_updateMem_ne {j n : Nat} {r r2 : ResourceName}
    (hd : n ≠ j ∨ r ≠ r2) (g : MemoryTable → MemoryTable) (st : Nat × NodeMap) :
    releaseMemStep r (st.1, updateMem j r2 g st.2) n
      = ((releaseMemStep r st n).1, updateMem j r2 g (releaseMemStep r st n).2) := by
  obtain ⟨sz, ms⟩ := st
  unfold releaseMemStep
  dsimp
  by_cases h0 : sz = 0
  · rw [if_pos h0, if_pos h0]
  · rw [if_neg h0, if_neg h0,
      lookupMem_updateMem_ne (hd.imp (fun h => h) (fun h => h)) g ms]
    cases hm : lookupMem ms n r with
    | none => rfl
    | some t =>
      dsimp
      by_cases hres : t.Reserved = 0
      · rw [if_pos hres, if_pos hres]
      · rw [if_neg hres, if_neg hres]
        by_cases hlt : t.Reserved < sz
        · rw [if_pos hlt, if_pos hlt]
          dsimp
          rw [updateMem_comm hd]
        · rw [if_neg hlt, if_neg hlt]
          dsimp
          rw [updateMem_comm hd]

theorem releaseFold_updateMem_ne {j : Nat} {r r2 : ResourceName}
    (g : MemoryTable → MemoryTable) :
    ∀ (bits : List Nat), (∀ n ∈ bits, n ≠ j ∨ r ≠ r2) → ∀ st : Nat × NodeMap,
      bits.foldl (releaseMemStep r) (st.1, updateMem j r2 g st.2)
        = ((bits.foldl (releaseMemStep r) st).1,
           updateMem j r2 g (bits.foldl (releaseMemStep r) st).2) := by
  intro bits
  induction bits with
  | nil => intro _ st; rfl
  | cons n bs ih =>
    intro hd st
    rw [List.foldl_cons, List.foldl_cons,
      releaseMemStep_updateMem_ne (hd n (List.mem_cons_self n bs)) g st]
    exact ih (fun m hm => hd m (List.mem_cons_of_mem n hm)) (releaseMemStep r st n)

theorem lookupMem_releaseFold_ne {r r2 : ResourceName} (hne : r2 ≠ r) (j : Nat) :
    ∀ (bits : List Nat) (st : Nat × NodeMap),
      lookupMem (bits.foldl (releaseMemStep r) st).2 j r2 = lookupMem st.2 j r2 := by
  intro bits
  induction bits with
  | nil => intro st; rfl
  | cons n bs ih =>
    intro st
    rw [List.foldl_cons, ih]
    rcases releaseMemStep_snd_cases r st n with h1 | ⟨g, h2⟩
    · rw [h1]
    · rw [h2, lookupMem_updateMem_ne (Or.inr hne) g st.2]

/-- A release walk of one resource commutes with a reservation walk of a
different resource: the two touch disjoint rows of every node's memory
map, and the release branches read only their own resource's row. -/
theorem releaseFold_reserveFold_comm {r r2 : ResourceName} (hne : r ≠ r2)
    (bits : List Nat) (sz : Nat) :
    ∀ (bits2 : List Nat) (sz2 : Nat) (ms : NodeMap),
      bits.foldl (releaseMemStep r) (sz, (bits2.foldl (reserveMemStep r2) (sz2, ms)).2)
        = ((bits.foldl (releaseMemStep r) (sz, ms)).1,
           (bits2.foldl (reserveMemStep r2)
             (sz2, (bits.foldl (releaseMemStep r) (sz, ms)).2)).2) := by
  intro bits2
  induction bits2 with
  | nil => intro sz2 ms; rfl
  | cons n bs2 ih =>
    intro sz2 ms
    rw [List.foldl_cons, List.foldl_cons]
    by_cases h0 : sz2 = 0
    · subst h0
      rw [reserveMemStep_zero, reserveFold_zero, reserveMemStep_zero, reserveFold_zero]
    · have hmR := lookupMem_releaseFold_ne (Ne.symm hne) n bits (sz, ms)
      cases hm : lookupMem ms n r2 with
      | none =>
        rw [hm] at hmR
        rw [reserveMemStep_none h0 hm, reserveMemStep_none h0 hmR]
        exact ih sz2 ms
      | some t =>
        rw [hm] at hmR
        by_cases hf : t.Free = 0
        · rw [reserveMemStep_skip h0 hm hf, reserveMemStep_skip h0 hmR hf]
          exact ih sz2 ms
        · by_cases hle : sz2 ≤ t.Free
          · rw [reserveMemStep_take h0 hm hf hle, reserveMemStep_take h0 hmR hf hle]
            have hupd := @releaseFold_updateMem_ne n r r2
              (fun tt => { tt with Reserved := tt.Reserved + sz2, Free := tt.Free - sz2 })
              bits (fun m _ => Or.inr hne) (sz, ms)
            dsimp at hupd
            rw [ih 0 (updateMem n r2
              (fun tt => { tt with Reserved := tt.Reserved + sz2, Free := tt.Free - sz2 })
              ms), hupd]
          · rw [reserveMemStep_drain h0 hm hf hle, reserveMemStep_drain h0 hmR hf hle]
            have hupd := @releaseFold_updateMem_ne n r r2
              (fun tt => { tt with Reserved := tt.Reserved + tt.Free, Free := 0 })
              bits (fun m _ => Or.inr hne) (sz, ms)
            dsimp at hupd
            rw [ih (sz2 - t.Free) (updateMem n r2
              (fun tt => { tt with Reserved := tt.Reserved + tt.Free, Free := 0 }) ms),
              hupd]

theorem releaseFold_reserveMulti_comm {r : ResourceName} (bits : List Nat) (sz : Nat)
    (bits2 : List Nat) :
    ∀ (rest : List (ResourceName × Nat)), (∀ rq ∈ rest, rq.1 ≠ r) →
    ∀ (ms : NodeMap),
      (bits.foldl (releaseMemStep r) (sz, reserveMulti bits2 rest ms)).2
        = reserveMulti bits2 rest (bits.foldl (releaseMemStep r) (sz, ms)).2 := by
  intro rest
  induction rest with
  | nil => intro _ ms; rfl
  | cons rq2 rest2 ih =>
    intro hd ms
    have h1 : ∀ Y : NodeMap, reserveMulti bits2 (rq2 :: rest2) Y
        = reserveMulti bits2 rest2 ((bits2.foldl (reserveMemStep rq2.1) (rq2.2, Y)).2) :=
      fun Y => rfl
    rw [h1, h1, ih (fun q hq => hd q (List.mem_cons_of_mem rq2 hq))]
    have hcomm := releaseFold_reserveFold_comm
      (Ne.symm (hd rq2 (List.mem_cons_self rq2 rest2))) bits sz bits2 rq2.2 ms
    have hsnd := congrArg Prod.snd hcomm
    dsimp at hsnd
    rw [hsnd]

/-- Core inverse for the memory halves: releasing a list of resources over
the same mask undoes reserving them, when the resource names are distinct
and the mask nodes start with no reserved bytes for any of them. -/
theorem releaseMulti_reserveMulti_inverse (bits : List Nat) (hnd : bits.Nodup) :
    ∀ (ras : List (ResourceName × Nat)) (ms : NodeMap),
      (ras.map Prod.fst).Nodup →
      (∀ rq ∈ ras, ∀ n ∈ bits, ∀ t, lookupMem ms n rq.1 = some t → t.Reserved = 0) →
      releaseMulti bits ras (reserveMulti bits ras ms) = ms := by
  intro ras
  induction ras with
  | nil => intro ms _ _; rfl
  | cons rq rest ih =>
    intro ms hkeys hres
    rw [List.map_cons, List.nodup_cons] at hkeys
    have h1 : reserveMulti bits (rq :: rest) ms
        = reserveMulti bits rest ((bits.foldl (reserveMemStep rq.1) (rq.2, ms)).2) := rfl
    have h2 : ∀ X : NodeMap, releaseMulti bits (rq :: rest) X
        = releaseMulti bits rest ((bits.foldl (releaseMemStep rq.1) (rq.2, X)).2) :=
      fun X => rfl
    have hd2 : ∀ q ∈ rest, q.1 ≠ rq.1 := by
      intro q hq he
      exact hkeys.1 (he ▸ List.mem_map_of_mem Prod.fst hq)
    rw [h1, h2, releaseFold_reserveMulti_comm bits rq.2 bits rest hd2
      ((bits.foldl (reserveMemStep rq.1) (rq.2, ms)).2),
      release_reserve_inverse rq.1 bits hnd rq.2 ms
        (hres rq (List.mem_cons_self rq rest))]
    exact ih ms hkeys.2 (fun q hq => hres q (List.mem_cons_of_mem rq hq))

theorem getBits_nodup (m : BitMask) : (getBits m).Nodup :=
  List.Nodup.filter (fun i => Nat.testBit m i) (List.nodup_range 64)

theorem getBitsOpt_nodup (o : Option BitMask) : (getBitsOpt o).Nodup := by
  cases o with
  | none => exact List.nodup_nil
  | some m => exact getBits_nodup m

theorem getReq_fold_keys_nodup :
    ∀ (l : List (ResourceName × Nat)) (acc : List (ResourceName × Nat)),
      (acc.map Prod.fst).Nodup →
      ((l.foldl (fun acc rq =>
        if rq.1 == resourceMemory || isHugePageResourceName rq.1
        then insertKey rq.1 rq.2 acc else acc) acc).map Prod.fst).Nodup := by
  intro l
  induction l with
  | nil => intro acc h; exact h
  | cons rq rest ih =>
    intro acc h
    rw [List.foldl_cons]
    by_cases hc : (rq.1 == resourceMemory || isHugePageResourceName rq.1) = true
    · simp only [if_pos hc]
      exact ih _ (nodup_keys_insertKey h)
    · simp only [if_neg hc]
      exact ih _ h

theorem getReq_keys_nodup (c : Container) :
    ((getRequestedResources c).map Prod.fst).Nodup :=
  getReq_fold_keys_nodup c.requests [] List.nodup_nil

theorem requestedAbsoluteOf_fold_keys_nodup (rr : List (ResourceName × Nat)) :
    ∀ (l : List Block) (acc : List (ResourceName × Nat)),
      (acc.map Prod.fst).Nodup →
      ((l.foldl (fun acc rb =>
        match lookupKey rb.BlockType rr with
        | none => acc
        | some req =>
          let acc1 := if req > rb.Size then insertKey rb.BlockType (req - rb.Size) acc
            else acc
          insertKey rb.BlockType 0 acc1) acc).map Prod.fst).Nodup := by
  intro l
  induction l with
  | nil => intro acc h; exact h
  | cons rb rest ih =>
    intro acc h
    rw [List.foldl_cons]
    cases hlk : lookupKey rb.BlockType rr with
    | none =>
      simp only [hlk]
      exact ih _ h
    | some req =>
      simp only [hlk]
      by_cases hgt : req > rb.Size
      · simp only [if_pos hgt]
        exact ih _ (nodup_keys_insertKey (nodup_keys_insertKey h))
      · simp only [if_neg hgt]
        exact ih _ (nodup_keys_insertKey h)

theorem requestedAbsoluteOf_keys_nodup (rr : List (ResourceName × Nat))
    (reusable : List Block) (h : (rr.map Prod.fst).Nodup) :
    ((requestedAbsoluteOf rr reusable).map Prod.fst).Nodup :=
  requestedAbsoluteOf_fold_keys_nodup rr reusable rr h

theorem freshForMask_spec {ms : NodeMap} {ras : List (ResourceName × Nat)}
    {bits : List Nat} (h : freshForMask ms ras bits = true) :
    (∀ n ∈ bits, ∀ v, lookupKey n ms = some v →
      v.NumberOfAssignments = 0 ∧ v.Nodes = [n])
    ∧ (∀ rq ∈ ras, ∀ n ∈ bits, ∀ t, lookupMem ms n rq.1 = some t → t.Reserved = 0) := by
  unfold freshForMask at h
  rw [List.all_eq_true] at h
  constructor
  · intro n hn v hv
    have h2 : (match lookupKey n ms with
        | none => true
        | some ns =>
          decide (ns.NumberOfAssignments = 0) && (ns.Nodes == [n]) &&
            ras.all (fun rq =>
              match lookupKey rq.1 ns.MemoryMap with
              | none => true
              | some t => decide (t.Reserved = 0))) = true := h n hn
    rw [hv] at h2
    have h3 : (decide (v.NumberOfAssignments = 0) && (v.Nodes == [n]) &&
        ras.all (fun rq =>
          match lookupKey rq.1 v.MemoryMap with
          | none => true
          | some t => decide (t.Reserved = 0))) = true := h2
    simp only [Bool.and_eq_true, decide_eq_true_eq, beq_iff_eq] at h3
    exact ⟨h3.1.1, h3.1.2⟩
  · intro rq hrq n hn t ht
    have h2 : (match lookupKey n ms with
        | none => true
        | some ns =>
          decide (ns.NumberOfAssignments = 0) && (ns.Nodes == [n]) &&
            ras.all (fun rq =>
              match lookupKey rq.1 ns.MemoryMap with
              | none => true
              | some t => decide (t.Reserved = 0))) = true := h n hn
    unfold lookupMem at ht
    cases hv : lookupKey n ms with
    | none =>
      rw [hv] at ht
      exact absurd ht (by simp)
    | some ns =>
      rw [hv] at ht h2
      have ht2 : lookupKey rq.1 ns.MemoryMap = some t := ht
      have h3 : (decide (ns.NumberOfAssignments = 0) && (ns.Nodes == [n]) &&
          ras.all (fun rq =>
            match lookupKey rq.1 ns.MemoryMap with
            | none => true
            | some t => decide (t.Reserved = 0))) = true := h2
      simp only [Bool.and_eq_true] at h3
      have h4 := List.all_eq_true.mp h3.2 rq hrq
      have h5 : (match lookupKey rq.1 ns.MemoryMap with
          | none => true
          | some t => decide (t.Reserved = 0)) = true := h4
      rw [ht2] at h5
      exact of_decide_eq_true h5

theorem getMemoryBlocks_setMemoryBlocks_self (a : Assignments) (u c : String)
    (bs : List Block) : getMemoryBlocks (setMemoryBlocks a u c bs) u c = bs := by
  unfold getMemoryBlocks setMemoryBlocks lookupD
  rw [lookupKey_insertKey, if_pos rfl]
  rfl

theorem RemoveContainer_eq (p : PolicyState) (u c : String) :
    RemoveContainer p u c
      = if getMemoryBlocks p.assignments u c = [] then p
        else { p with
               assignments := deleteAssignment p.assignments u c,
               machineState := (getMemoryBlocks p.assignments u c).foldl (fun ms b =>
                 (b.NUMAAffinity.foldl (removeNodeStep b.BlockType) (b.Size, ms)).2)
                 p.machineState } := rfl

theorem Allocate_success {p : PolicyState} {pod : Pod} {container : Container}
    {hint bh : TopologyHint}
    (hq : pod.qosClass = PodQOSClass.Guaranteed)
    (hnob : getMemoryBlocks p.assignments pod.uid container.name = [])
    (hre : resolveBestHint p.machineState (lookupD p.memoryToReuse pod.uid [])
      (getRequestedResources container) hint = Except.ok bh) :
    Allocate p pod container hint = Except.ok (allocSuccessor p pod container bh) := by
  have h1 : Allocate p pod container hint
      = if pod.qosClass ≠ PodQOSClass.Guaranteed then Except.ok p
        else if getMemoryBlocks p.assignments pod.uid container.name ≠ [] then
          Except.ok
            { p with
              memoryToReuse :=
                updateMemoryToReuse p.memoryToReuse pod container
                  (getMemoryBlocks p.assignments pod.uid container.name) }
        else
          match resolveBestHint p.machineState (lookupD p.memoryToReuse pod.uid [])
              (getRequestedResources container) hint with
          | Except.error e => Except.error e
          | Except.ok bestHint => Except.ok (allocSuccessor p pod container bestHint) := rfl
  rw [h1, if_neg (show ¬pod.qosClass ≠ PodQOSClass.Guaranteed from fun hc => hc hq),
    if_neg (show ¬getMemoryBlocks p.assignments pod.uid container.name ≠ [] from
      fun hc => hc hnob), hre]

theorem RemoveContainer_no_blocks {p : PolicyState} {u c : String}
    (h : getMemoryBlocks p.assignments u c = []) : RemoveContainer p u c = p := by
  rw [RemoveContainer_eq, if_pos h]

theorem Allocate_existing_blocks {p : PolicyState} {pod : Pod} {container : Container}
    {hint : TopologyHint}
    (hq : pod.qosClass = PodQOSClass.Guaranteed)
    (hb : getMemoryBlocks p.assignments pod.uid container.name ≠ []) :
    Allocate p pod container hint
      = Except.ok
          { p with
            memoryToReuse :=
              updateMemoryToReuse p.memoryToReuse pod container
                (getMemoryBlocks p.assignments pod.uid container.name) } := by
  have h1 : Allocate p pod container hint
      = if pod.qosClass ≠ PodQOSClass.Guaranteed then Except.ok p
        else if getMemoryBlocks p.assignments pod.uid container.name ≠ [] then
          Except.ok
            { p with
              memoryToReuse :=
                updateMemoryToReuse p.memoryToReuse pod container
                  (getMemoryBlocks p.assignments pod.uid container.name) }
        else
          match resolveBestHint p.machineState (lookupD p.memoryToReuse pod.uid [])
              (getRequestedResources container) hint with
          | Except.error e => Except.error e
          | Except.ok bestHint => Except.ok (allocSuccessor p pod container bestHint) := rfl
  rw [h1, if_neg (show ¬pod.qosClass ≠ PodQOSClass.Guaranteed from fun hc => hc hq),
    if_pos hb]

theorem Allocate_not_guaranteed {p : PolicyState} {pod : Pod} {container : Container}
    {hint : TopologyHint} (hq : pod.qosClass ≠ PodQOSClass.Guaranteed) :
    Allocate p pod container hint = Except.ok p := by
  unfold Allocate
  rw [if_pos hq]

theorem applyAllocation_remove_restore (mb : List Nat) (hndmb : mb.Nodup)
    (rr ras : List (ResourceName × Nat)) (hnd : (ras.map Prod.fst).Nodup)
    (ms : NodeMap) (hfr : freshForMask ms ras mb = true) :
    (applyAllocation mb rr ras ms).1.foldl (fun m b =>
      (b.NUMAAffinity.foldl (removeNodeStep b.BlockType) (b.Size, m)).2)
      (applyAllocation mb rr ras ms).2 = ms := by
  obtain ⟨hfr1, hfr2⟩ := freshForMask_spec hfr
  have hfst : (applyAllocation mb rr ras ms).1
      = ras.map (fun rq => (⟨mb, rq.2, rq.1, lookupD rr rq.1 0 - rq.2⟩ : Block)) := by
    have h := applyFold_fst mb rr ras [] ms
    rw [List.nil_append] at h
    exact h
  have hsnd : (applyAllocation mb rr ras ms).2
      = mapNodesIter mb (fun _ => bumpFn mb) ras.length (reserveMulti mb ras ms) :=
    applyFold_snd mb rr ras [] ms
  rw [hfst, hsnd, removeBlocksFold_char mb rr ras,
    releaseMulti_mapNodesIter_blind (fun j => mmBlind_bumpFn mb) mb ras mb ras.length
      (reserveMulti mb ras ms),
    releaseMulti_reserveMulti_inverse mb hndmb ras ms hnd hfr2]
  exact drop_bump_restore hndmb ras.length ms hfr1

/-- C3 (amended): for a container with no prior assignment whose hint
resolves, a successful Allocate followed by RemoveContainer for the same
pod and container restores the machine state, provided the resolved
mask's nodes are fresh: no assignments, singleton node groups, and no
reserved bytes for the requested resource types.  The spec's
unconditional round-trip sentence fails without the freshness premise,
because the release walk returns bytes to pre-existing reserved
capacity of earlier nodes in the mask (see the counterexample). -/
theorem C3_round_trip_amended (p : PolicyState) (pod : Pod) (container : Container)
    (hint : TopologyHint) (q : PolicyState) (bh : TopologyHint)
    (hnob : getMemoryBlocks p.assignments pod.uid container.name = [])
    (hre : resolveBestHint p.machineState (lookupD p.memoryToReuse pod.uid [])
      (getRequestedResources container) hint = Except.ok bh)
    (hok : Allocate p pod container hint = Except.ok q)
    (hfr : freshForMask p.machineState
      (requestedAbsoluteOf (getRequestedResources container)
        (lookupD p.memoryToReuse pod.uid []))
      (getBitsOpt bh.NUMANodeAffinity) = true) :
    (RemoveContainer q pod.uid container.name).machineState = p.machineState := by
  by_cases hq : pod.qosClass = PodQOSClass.Guaranteed
  · rw [Allocate_success hq hnob hre] at hok
    injection hok with hok2
    subst hok2
    have hblocks : getMemoryBlocks (allocSuccessor p pod container bh).assignments
        pod.uid container.name
        = (applyAllocation (getBitsOpt bh.NUMANodeAffinity) (getRequestedResources container)
            (requestedAbsoluteOf (getRequestedResources container)
              (lookupD p.memoryToReuse pod.uid []))
            p.machineState).1 :=
      getMemoryBlocks_setMemoryBlocks_self p.assignments pod.uid container.name _
    rw [RemoveContainer_eq, hblocks]
    by_cases hW : (applyAllocation (getBitsOpt bh.NUMANodeAffinity)
        (getRequestedResources container)
        (requestedAbsoluteOf (getRequestedResources container)
          (lookupD p.memoryToReuse pod.uid []))
        p.machineState).1 = []
    · rw [if_pos hW]
      have hrest := applyAllocation_remove_restore (getBitsOpt bh.NUMANodeAffinity)
        (getBitsOpt_nodup bh.NUMANodeAffinity) (getRequestedResources container)
        (requestedAbsoluteOf (getRequestedResources container)
          (lookupD p.memoryToReuse pod.uid []))
        (requestedAbsoluteOf_keys_nodup (getRequestedResources container)
          (lookupD p.memoryToReuse pod.uid []) (getReq_keys_nodup container))
        p.machineState hfr
      rw [hW] at hrest
      exact hrest
    · rw [if_neg hW]
      exact applyAllocation_remove_restore (getBitsOpt bh.NUMANodeAffinity)
        (getBitsOpt_nodup bh.NUMANodeAffinity) (getRequestedResources container)
        (requestedAbsoluteOf (getRequestedResources container)
          (lookupD p.memoryToReuse pod.uid []))
        (requestedAbsoluteOf_keys_nodup (getRequestedResources container)
          (lookupD p.memoryToReuse pod.uid []) (getReq_keys_nodup container))
        p.machineState hfr
  · rw [Allocate_not_guaranteed hq] at hok
    injection hok with hok2
    subst hok2
    rw [RemoveContainer_eq, if_pos hnob]

/-- Witness for the amended round trip: the two-node fixture, one
guaranteed container of eight bytes over the pair mask. -/
theorem C3_round_trip_amended_witness :
    getMemoryBlocks stRT.assignments podRT.uid ctrRT.name = []
    ∧ resolveBestHint stRT.machineState (lookupD stRT.memoryToReuse podRT.uid [])
        (getRequestedResources ctrRT) hintRT = Except.ok bhRT
    ∧ Allocate stRT podRT ctrRT hintRT = Except.ok qRT
    ∧ freshForMask stRT.machineState
        (requestedAbsoluteOf (getRequestedResources ctrRT)
          (lookupD stRT.memoryToReuse podRT.uid []))
        (getBitsOpt bhRT.NUMANodeAffinity) = true
    ∧ (RemoveContainer qRT podRT.uid ctrRT.name).machineState = stRT.machineState :=
  ⟨rfl, rfl, rfl, rfl,
   C3_round_trip_amended stRT podRT ctrRT hintRT qRT bhRT rfl rfl rfl rfl⟩

/-- C4 (amended): once blocks are on record for a (pod, container) pair,
a second Allocate succeeds and leaves the machine state and the
assignments unchanged -- the reusable pool, however, is reduced again,
which refutes the spec's "leaves all policy state unchanged" (see the
counterexample); a second RemoveContainer for the same pair is a no-op
when the assignment keys are duplicate-free; and RemoveContainer for a
pair with no stored blocks returns the state unchanged. -/
theorem C4_idempotence_amended (p : PolicyState) (pod : Pod) (container : Container)
    (hint : TopologyHint) (u c : String) :
    (pod.qosClass = PodQOSClass.Guaranteed →
      getMemoryBlocks p.assignments pod.uid container.name ≠ [] →
      ∃ q, Allocate p pod container hint = Except.ok q
        ∧ q.machineState = p.machineState ∧ q.assignments = p.assignments)
    ∧ ((p.assignments.map Prod.fst).Nodup →
      RemoveContainer (RemoveContainer p u c) u c = RemoveContainer p u c)
    ∧ (getMemoryBlocks p.assignments u c = [] → RemoveContainer p u c = p) := by
  refine ⟨?_, ?_, ?_⟩
  · intro hq hb
    exact ⟨_, Allocate_existing_blocks hq hb, rfl, rfl⟩
  · intro hnd
    by_cases hb : getMemoryBlocks p.assignments u c = []
    · rw [RemoveContainer_no_blocks hb]
      exact RemoveContainer_no_blocks hb
    · rw [RemoveContainer_eq p u c, if_neg hb]
      apply RemoveContainer_no_blocks
      show lookupD (eraseKey (u, c) p.assignments) (u, c) [] = []
      unfold lookupD
      rw [lookupKey_eraseKey_self hnd]
      rfl
  · exact RemoveContainer_no_blocks

/-- Witness for the amended idempotence at the admitted two-container
fixture. -/
theorem C4_idempotence_amended_witness :
    (∃ q, Allocate stC4 podC4 ctrAppC4 hintC4 = Except.ok q
        ∧ q.machineState = stC4.machineState ∧ q.assignments = stC4.assignments)
    ∧ RemoveContainer (RemoveContainer stC4 "pi" "app1") "pi" "app1"
        = RemoveContainer stC4 "pi" "app1"
    ∧ RemoveContainer stC4 "nope" "c0" = stC4 :=
  ⟨(C4_idempotence_amended stC4 podC4 ctrAppC4 hintC4 "pi" "app1").1 (by decide) (by decide),
   (C4_idempotence_amended stC4 podC4 ctrAppC4 hintC4 "pi" "app1").2.1 (by decide),
   (C4_idempotence_amended stC4 podC4 ctrAppC4 hintC4 "nope" "c0").2.2 (by decide)⟩

/-! The per-resource reading of getPodRequestedResources. -/

theorem ite_gt_eq_max (a b : Nat) : (if a > b then a else b) = max b a := by
  by_cases h : a > b
  · rw [if_pos h]
    omega
  · rw [if_neg h]
    omega

theorem sumFold_shift (r : ResourceName) :
    ∀ (l : List (ResourceName × Nat)) (s0 : Nat),
      l.foldl (fun s rq => if rq.1 = r then s + rq.2 else s) s0
        = s0 + l.foldl (fun s rq => if rq.1 = r then s + rq.2 else s) 0 := by
  intro l
  induction l with
  | nil => intro s0; simp
  | cons rq l2 ih =>
    intro s0
    rw [List.foldl_cons, List.foldl_cons,
      ih (if rq.1 = r then s0 + rq.2 else s0), ih (if rq.1 = r then 0 + rq.2 else 0)]
    by_cases h : rq.1 = r
    · rw [if_pos h, if_pos h]
      omega
    · rw [if_neg h, if_neg h]
      omega

theorem maxFold_shift (r : ResourceName) :
    ∀ (l : List (ResourceName × Nat)) (s0 : Nat),
      l.foldl (fun s rq => if rq.1 = r then max s rq.2 else s) s0
        = max s0 (l.foldl (fun s rq => if rq.1 = r then max s rq.2 else s) 0) := by
  intro l
  induction l with
  | nil => intro s0; simp
  | cons rq l2 ih =>
    intro s0
    rw [List.foldl_cons, List.foldl_cons,
      ih (if rq.1 = r then max s0 rq.2 else s0), ih (if rq.1 = r then max 0 rq.2 else 0)]
    by_cases h : rq.1 = r
    · rw [if_pos h, if_pos h]
      omega
    · rw [if_neg h, if_neg h]
      omega

theorem sumFold_zero_of_none (r : ResourceName) :
    ∀ (l : List (ResourceName × Nat)), l.any (fun rq => rq.1 == r) = false →
      l.foldl (fun s rq => if rq.1 = r then s + rq.2 else s) 0 = 0 := by
  intro l
  induction l with
  | nil => intro _; rfl
  | cons rq l2 ih =>
    intro h
    rw [List.any_cons, Bool.or_eq_false_iff] at h
    have hne : rq.1 ≠ r := by
      intro he
      rw [he] at h
      simp at h
    rw [List.foldl_cons, if_neg hne]
    exact ih h.2

theorem maxFold_zero_of_none (r : ResourceName) :
    ∀ (l : List (ResourceName × Nat)), l.any (fun rq => rq.1 == r) = false →
      l.foldl (fun s rq => if rq.1 = r then max s rq.2 else s) 0 = 0 := by
  intro l
  induction l with
  | nil => intro _; rfl
  | cons rq l2 ih =>
    intro h
    rw [List.any_cons, Bool.or_eq_false_iff] at h
    have hne : rq.1 ≠ r := by
      intro he
      rw [he] at h
      simp at h
    rw [List.foldl_cons, if_neg hne]
    exact ih h.2

theorem lookupD_insertKey {α β : Type} [DecidableEq α] (k r : α) (v d : β)
    (m : List (α × β)) :
    lookupD (insertKey k v m) r d = if r = k then v else lookupD m r d := by
  unfold lookupD
  rw [lookupKey_insertKey]
  by_cases h : r = k
  · rw [if_pos h, if_pos h]
    rfl
  · rw [if_neg h, if_neg h]

theorem foldl_inner_flat {α β γ : Type} (g : γ → List α) (f : β → α → β) :
    ∀ (cs : List γ) (acc : β),
      cs.foldl (fun acc c => (g c).foldl f acc) acc = (cs.flatMap g).foldl f acc := by
  intro cs
  induction cs with
  | nil => intro acc; rfl
  | cons c cs2 ih =>
    intro acc
    rw [List.foldl_cons, ih, List.flatMap_cons, List.foldl_append]

theorem lookupKey_sumStepFold (r : ResourceName) :
    ∀ (l : List (ResourceName × Nat)) (acc : List (ResourceName × Nat)),
      lookupKey r (l.foldl (fun acc2 rq =>
          insertKey rq.1 (lookupD acc2 rq.1 0 + rq.2) acc2) acc)
        = if l.any (fun rq => rq.1 == r)
          then some (lookupD acc r 0
            + l.foldl (fun s rq => if rq.1 = r then s + rq.2 else s) 0)
          else lookupKey r acc := by
  intro l
  induction l with
  | nil => intro acc; simp
  | cons rq l2 ih =>
    intro acc
    rw [List.foldl_cons, List.any_cons,
      ih (insertKey rq.1 (lookupD acc rq.1 0 + rq.2) acc),
      List.foldl_cons, sumFold_shift r l2 (if rq.1 = r then 0 + rq.2 else 0),
      lookupD_insertKey rq.1 r (lookupD acc rq.1 0 + rq.2) 0 acc,
      lookupKey_insertKey rq.1 r (lookupD acc rq.1 0 + rq.2) acc]
    by_cases h : rq.1 = r
    · have hbeq : (rq.1 == r) = true := beq_iff_eq.mpr h
      have htr : (rq.1 == r || l2.any (fun rq => rq.1 == r)) = true := by
        rw [hbeq]
        exact Bool.true_or _
      rw [if_pos htr, if_pos h.symm, if_pos h.symm, if_pos h, h]
      cases hl2 : l2.any (fun rq => rq.1 == r) with
      | true =>
        rw [if_pos (rfl : true = true)]
        exact congrArg some (by omega)
      | false =>
        rw [if_neg Bool.false_ne_true, sumFold_zero_of_none r l2 hl2]
        exact congrArg some (by omega)
    · have hne : r ≠ rq.1 := fun he => h he.symm
      have hbeq : (rq.1 == r) = false := by
        simp [h]
      rw [hbeq, Bool.false_or, if_neg h, if_neg hne, if_neg hne, Nat.zero_add]

theorem lookupKey_maxStepFold (r : ResourceName) :
    ∀ (l : List (ResourceName × Nat)) (acc : List (ResourceName × Nat)),
      lookupKey r (l.foldl (fun acc2 rq =>
          insertKey rq.1
            (if rq.2 > lookupD acc2 rq.1 0 then rq.2 else lookupD acc2 rq.1 0) acc2) acc)
        = if l.any (fun rq => rq.1 == r)
          then some (max (lookupD acc r 0)
            (l.foldl (fun s rq => if rq.1 = r then max s rq.2 else s) 0))
          else lookupKey r acc := by
  intro l
  induction l with
  | nil => intro acc; simp
  | cons rq l2 ih =>
    intro acc
    rw [List.foldl_cons, List.any_cons,
      ih (insertKey rq.1
        (if rq.2 > lookupD acc rq.1 0 then rq.2 else lookupD acc rq.1 0) acc),
      List.foldl_cons, maxFold_shift r l2 (if rq.1 = r then max 0 rq.2 else 0),
      lookupD_insertKey rq.1 r
        (if rq.2 > lookupD acc rq.1 0 then rq.2 else lookupD acc rq.1 0) 0 acc,
      lookupKey_insertKey rq.1 r
        (if rq.2 > lookupD acc rq.1 0 then rq.2 else lookupD acc rq.1 0) acc]
    by_cases h : rq.1 = r
    · have hbeq : (rq.1 == r) = true := beq_iff_eq.mpr h
      have htr : (rq.1 == r || l2.any (fun rq => rq.1 == r)) = true := by
        rw [hbeq]
        exact Bool.true_or _
      rw [if_pos htr, if_pos h.symm, if_pos h.symm, if_pos h, h,
        ite_gt_eq_max rq.2 (lookupD acc r 0)]
      cases hl2 : l2.any (fun rq => rq.1 == r) with
      | true =>
        rw [if_pos (rfl : true = true)]
        exact congrArg some (by omega)
      | false =>
        rw [if_neg Bool.false_ne_true, maxFold_zero_of_none r l2 hl2]
        exact congrArg some (by omega)
    · have hne : r ≠ rq.1 := fun he => h he.symm
      have hbeq : (rq.1 == r) = false := by
        simp [h]
      rw [hbeq, Bool.false_or, if_neg h, if_neg hne, if_neg hne]
      cases hl2 : l2.any (fun rq => rq.1 == r) with
      | true =>
        rw [if_pos (rfl : true = true), if_pos (rfl : true = true)]
        exact congrArg some (by omega)
      | false =>
        rw [if_neg Bool.false_ne_true, if_neg Bool.false_ne_true]

theorem lookupKey_finalMap (init : List (ResourceName × Nat)) :
    ∀ (m : List (ResourceName × Nat)) (r : ResourceName),
      lookupKey r (m.map (fun rq =>
        (rq.1, if lookupD init rq.1 0 > rq.2 then lookupD init rq.1 0 else rq.2)))
        = (lookupKey r m).map (fun v =>
            if lookupD init r 0 > v then lookupD init r 0 else v) := by
  intro m
  induction m with
  | nil => intro r; rfl
  | cons kv m2 ih =>
    intro r
    rw [List.map_cons, lookupKey, lookupKey]
    dsimp
    by_cases h : kv.1 = r
    · rw [if_pos h, if_pos h, h]
      rfl
    · rw [if_neg h, if_neg h, ih]

theorem getPodRequestedResources_eq (pod : Pod) :
    getPodRequestedResources pod
      = (pod.containers.foldl (fun acc ctr => (getRequestedResources ctr).foldl
          (fun acc2 rq => insertKey rq.1 (lookupD acc2 rq.1 0 + rq.2) acc2) acc) []).map
          (fun rq =>
            (rq.1,
             if lookupD (pod.initContainers.foldl (fun acc ctr =>
                   (getRequestedResources ctr).foldl (fun acc2 rq =>
                     insertKey rq.1 (if rq.2 > lookupD acc2 rq.1 0 then rq.2
                       else lookupD acc2 rq.1 0) acc2) acc) []) rq.1 0 > rq.2
             then lookupD (pod.initContainers.foldl (fun acc ctr =>
                   (getRequestedResources ctr).foldl (fun acc2 rq =>
                     insertKey rq.1 (if rq.2 > lookupD acc2 rq.1 0 then rq.2
                       else lookupD acc2 rq.1 0) acc2) acc) []) rq.1 0
             else rq.2)) := rfl

/-- C7 (amended): getPodRequestedResources maps every resource class
requested by at least one app container to max(sum over app containers,
max over init containers), and omits every resource class requested
only by init containers -- the final merge iterates the app-container
aggregate alone, which refutes the spec's "for every resource requested
by any of the pod's containers (init or app)" (see the
counterexample). -/
theorem C7_pod_aggregation_amended (pod : Pod) (r : ResourceName) :
    lookupKey r (getPodRequestedResources pod)
      = if (pod.containers.flatMap getRequestedResources).any (fun rq => rq.1 == r)
        then some (max (appSum pod r) (initMax pod r))
        else none := by
  rw [getPodRequestedResources_eq pod,
    foldl_inner_flat getRequestedResources
      (fun acc2 rq => insertKey rq.1 (lookupD acc2 rq.1 0 + rq.2) acc2) pod.containers [],
    foldl_inner_flat getRequestedResources
      (fun acc2 rq => insertKey rq.1
        (if rq.2 > lookupD acc2 rq.1 0 then rq.2 else lookupD acc2 rq.1 0) acc2)
      pod.initContainers [],
    lookupKey_finalMap ((pod.initContainers.flatMap getRequestedResources).foldl
      (fun acc2 rq => insertKey rq.1
        (if rq.2 > lookupD acc2 rq.1 0 then rq.2 else lookupD acc2 rq.1 0) acc2) [])
      ((pod.containers.flatMap getRequestedResources).foldl
        (fun acc2 rq => insertKey rq.1 (lookupD acc2 rq.1 0 + rq.2) acc2) []) r,
    lookupKey_sumStepFold r (pod.containers.flatMap getRequestedResources) []]
  have hinit : lookupD ((pod.initContainers.flatMap getRequestedResources).foldl
      (fun acc2 rq => insertKey rq.1
        (if rq.2 > lookupD acc2 rq.1 0 then rq.2 else lookupD acc2 rq.1 0) acc2) []) r 0
      = initMax pod r := by
    rw [show ∀ (m : List (ResourceName × Nat)), lookupD m r 0 = (lookupKey r m).getD 0
      from fun m => rfl]
    rw [lookupKey_maxStepFold r (pod.initContainers.flatMap getRequestedResources) []]
    by_cases h2 : (pod.initContainers.flatMap getRequestedResources).any
        (fun rq => rq.1 == r) = true
    · rw [if_pos h2]
      show max (lookupD [] r 0) (initMax pod r) = initMax pod r
      have hz : lookupD ([] : List (ResourceName × Nat)) r 0 = 0 := rfl
      rw [hz]
      omega
    · rw [if_neg h2]
      have h3 : (pod.initContainers.flatMap getRequestedResources).any
          (fun rq => rq.1 == r) = false := Bool.eq_false_iff.mpr h2
      exact (maxFold_zero_of_none r _ h3).symm
  rw [hinit]
  by_cases hany : (pod.containers.flatMap getRequestedResources).any
      (fun rq => rq.1 == r) = true
  · rw [if_pos hany, if_pos hany]
    show some (if initMax pod r > 0 + appSum pod r then initMax pod r
      else 0 + appSum pod r) = some (max (appSum pod r) (initMax pod r))
    exact congrArg some (by rw [ite_gt_eq_max]; omega)
  · rw [if_neg hany, if_neg hany]
    rfl

/-! The branch structure of scope.RemoveContainer. -/

theorem scopeRemoveContainer_eq (s : ScopeState) (cid : String) :
    scopeRemoveContainer s cid
      = match lookupKey (lookupD s.podMap cid emptyString) s.podTopologyHints with
        | none => { podTopologyHints := s.podTopologyHints,
                    podMap := eraseKey cid s.podMap }
        | some inner =>
          if (eraseKey cid inner).length = 0 then
            { podTopologyHints := eraseKey (lookupD s.podMap cid emptyString)
                s.podTopologyHints,
              podMap := eraseKey cid s.podMap }
          else
            { podTopologyHints := insertKey (lookupD s.podMap cid emptyString)
                (eraseKey cid inner) s.podTopologyHints,
              podMap := eraseKey cid s.podMap } := rfl

theorem scopeRemove_none {s : ScopeState} {cid : String}
    (hm : lookupKey (lookupD s.podMap cid emptyString) s.podTopologyHints = none) :
    scopeRemoveContainer s cid
      = { podTopologyHints := s.podTopologyHints, podMap := eraseKey cid s.podMap } := by
  rw [scopeRemoveContainer_eq, hm]

theorem scopeRemove_empty {s : ScopeState} {cid : String}
    {inner : List (String × TopologyHint)}
    (hm : lookupKey (lookupD s.podMap cid emptyString) s.podTopologyHints = some inner)
    (hlen : (eraseKey cid inner).length = 0) :
    scopeRemoveContainer s cid
      = { podTopologyHints := eraseKey (lookupD s.podMap cid emptyString)
            s.podTopologyHints,
          podMap := eraseKey cid s.podMap } := by
  rw [scopeRemoveContainer_eq, hm]
  dsimp only
  rw [if_pos hlen]

theorem scopeRemove_keep {s : ScopeState} {cid : String}
    {inner : List (String × TopologyHint)}
    (hm : lookupKey (lookupD s.podMap cid emptyString) s.podTopologyHints = some inner)
    (hlen : ¬(eraseKey cid inner).length = 0) :
    scopeRemoveContainer s cid
      = { podTopologyHints := insertKey (lookupD s.podMap cid emptyString)
            (eraseKey cid inner) s.podTopologyHints,
          podMap := eraseKey cid s.podMap } := by
  rw [scopeRemoveContainer_eq, hm]
  dsimp only
  rw [if_neg hlen]

theorem scopeRemoveContainer_podMap (s : ScopeState) (cid : String) :
    (scopeRemoveContainer s cid).podMap = eraseKey cid s.podMap := by
  cases hm : lookupKey (lookupD s.podMap cid emptyString) s.podTopologyHints with
  | none => rw [scopeRemove_none hm]
  | some inner =>
    by_cases hlen : (eraseKey cid inner).length = 0
    · rw [scopeRemove_empty hm hlen]
    · rw [scopeRemove_keep hm hlen]

/-- C9 (amended): scope.RemoveContainer always succeeds and removes the
container id's binding from the index (other bindings survive), but the
Affinity table is keyed by container name while the deletion uses the
container id as the key, so every affinity stored under a key other
than the container id survives the call -- including the removed
container's own hint, stored under its name (the leak refuted by the
counterexample).  For an unknown container id with no pod entry under
the empty string the call leaves the state unchanged. -/
theorem C9_scope_remove_amended (s : ScopeState) (cid : String) :
    ((s.podMap.map Prod.fst).Nodup →
      lookupKey cid (scopeRemoveContainer s cid).podMap = none)
    ∧ (∀ c2, c2 ≠ cid →
        lookupKey c2 (scopeRemoveContainer s cid).podMap = lookupKey c2 s.podMap)
    ∧ ((s.podTopologyHints.map Prod.fst).Nodup →
        ∀ u k, k ≠ cid →
          GetAffinity (scopeRemoveContainer s cid) u k = GetAffinity s u k)
    ∧ (lookupKey cid s.podMap = none →
        lookupKey emptyString s.podTopologyHints = none →
        scopeRemoveContainer s cid = s) := by
  refine ⟨?_, ?_, ?_, ?_⟩
  · intro hnd
    rw [scopeRemoveContainer_podMap]
    exact lookupKey_eraseKey_self hnd
  · intro c2 hc2
    rw [scopeRemoveContainer_podMap]
    exact lookupKey_eraseKey_ne hc2 s.podMap
  · intro hnd u k hk
    unfold GetAffinity
    cases hm : lookupKey (lookupD s.podMap cid emptyString) s.podTopologyHints with
    | none => rw [scopeRemove_none hm]
    | some inner =>
      by_cases hlen : (eraseKey cid inner).length = 0
      · rw [scopeRemove_empty hm hlen]
        dsimp only
        by_cases hu : u = lookupD s.podMap cid emptyString
        · rw [hu, lookupKey_eraseKey_self hnd, hm]
          have hinner : lookupKey k inner = none := by
            rcases eraseKey_nil_cases (List.length_eq_zero.mp hlen) with h1 | ⟨v, h2⟩
            · rw [h1]
              rfl
            · rw [h2, lookupKey, if_neg (show ¬(cid, v).1 = k from
                fun he => hk (Eq.symm he))]
              rfl
          show ({ NUMANodeAffinity := none, Preferred := false } : TopologyHint)
            = (lookupKey k inner).getD { NUMANodeAffinity := none, Preferred := false }
          rw [hinner]
          rfl
        · rw [lookupKey_eraseKey_ne hu]
      · rw [scopeRemove_keep hm hlen]
        dsimp only
        by_cases hu : u = lookupD s.podMap cid emptyString
        · rw [hu, lookupKey_insertKey, if_pos rfl, hm]
          show (lookupKey k (eraseKey cid inner)).getD
              { NUMANodeAffinity := none, Preferred := false }
            = (lookupKey k inner).getD { NUMANodeAffinity := none, Preferred := false }
          rw [lookupKey_eraseKey_ne hk]
        · rw [lookupKey_insertKey, if_neg hu]
  · intro hno hstr
    have hu0 : lookupD s.podMap cid emptyString = emptyString := by
      unfold lookupD
      rw [hno]
      rfl
    have hm : lookupKey (lookupD s.podMap cid emptyString) s.podTopologyHints = none := by
      rw [hu0]
      exact hstr
    rw [scopeRemove_none hm, eraseKey_not_mem hno]

/-- Witness for the amended scope removal at the one-container scope. -/
theorem C9_scope_remove_amended_witness :
    lookupKey "cid" (scopeRemoveContainer s0C9 "cid").podMap = none
    ∧ lookupKey "other" (scopeRemoveContainer s0C9 "cid").podMap
        = lookupKey "other" s0C9.podMap
    ∧ GetAffinity (scopeRemoveContainer s0C9 "cid") "pu" "cname"
        = GetAffinity s0C9 "pu" "cname"
    ∧ scopeRemoveContainer s0C9 "nope" = s0C9 :=
  ⟨(C9_scope_remove_amended s0C9 "cid").1 (by decide),
   (C9_scope_remove_amended s0C9 "cid").2.1 "other" (by decide),
   (C9_scope_remove_amended s0C9 "cid").2.2.1 (by decide) "pu" "cname" (by decide),
   (C9_scope_remove_amended s0C9 "nope").2.2.2 (by decide) (by decide)⟩

/-! Group coherence under fresh-mask allocation. -/

theorem reserveMulti_mapNodesIter_blind {f : Nat → NodeState → NodeState}
    (hf : ∀ j, MMBlind (f j)) (bits : List Nat) (ras : List (ResourceName × Nat))
    (bits2 : List Nat) (k : Nat) :
    ∀ ms : NodeMap,
      reserveMulti bits ras (mapNodesIter bits2 f k ms)
        = mapNodesIter bits2 f k (reserveMulti bits ras ms) := by
  induction k with
  | zero => intro ms; rfl
  | succ k2 ih =>
    intro ms
    unfold mapNodesIter
    rw [ih, reserveMulti_mapNodes_blind hf]

theorem mem_lookupKey_nodup {α β : Type} [DecidableEq α] :
    ∀ {m : List (α × β)}, (m.map Prod.fst).Nodup → ∀ {x : α × β}, x ∈ m →
      lookupKey x.1 m = some x.2 := by
  intro m
  induction m with
  | nil => intro _ x hx; exact absurd hx (List.not_mem_nil x)
  | cons kv rest ih =>
    intro hnd x hx
    rw [List.map_cons, List.nodup_cons] at hnd
    rcases List.mem_cons.mp hx with h1 | h2
    · subst h1
      rw [lookupKey, if_pos rfl]
    · rw [lookupKey]
      by_cases hk : kv.1 = x.1
      · exact absurd (hk ▸ List.mem_map_of_mem Prod.fst h2) hnd.1
      · rw [if_neg hk]
        exact ih hnd.2 h2

theorem mapNodes_keys (f : Nat → NodeState → NodeState) :
    ∀ (bits : List Nat) (ms : NodeMap),
      (mapNodes bits f ms).map Prod.fst = ms.map Prod.fst := by
  intro bits
  induction bits with
  | nil => intro ms; rfl
  | cons n bs ih =>
    intro ms
    rw [mapNodes_cons, ih, keys_updateKey]

theorem lookupKey_mapNodes_not_mem {j : Nat} (f : Nat → NodeState → NodeState) :
    ∀ (bits : List Nat), j ∉ bits → ∀ ms,
      lookupKey j (mapNodes bits f ms) = lookupKey j ms := by
  intro bits
  induction bits with
  | nil => intro _ ms; rfl
  | cons n bs ih =>
    intro hj ms
    rw [mapNodes_cons, ih (fun h => hj (List.mem_cons_of_mem n h)), lookupKey_updateKey,
      if_neg (fun he : j = n => hj (List.mem_cons.mpr (Or.inl he)))]

theorem lookupKey_mapNodes_mem {j : Nat} (f : Nat → NodeState → NodeState) :
    ∀ (bits : List Nat), bits.Nodup → j ∈ bits → ∀ ms,
      lookupKey j (mapNodes bits f ms) = (lookupKey j ms).map (f j) := by
  intro bits
  induction bits with
  | nil => intro _ hj ms; exact absurd hj (List.not_mem_nil j)
  | cons n bs ih =>
    intro hnd hj ms
    rw [List.nodup_cons] at hnd
    by_cases he : j = n
    · subst he
      rw [mapNodes_cons, lookupKey_mapNodes_not_mem f bs hnd.1, lookupKey_updateKey,
        if_pos rfl]
    · have hjbs : j ∈ bs := (List.mem_cons.mp hj).resolve_left he
      rw [mapNodes_cons, ih hnd.2 hjbs, lookupKey_updateKey, if_neg he]

theorem shapeEq_refl (ms : NodeMap) : shapeEq ms ms := by
  unfold shapeEq
  exact List.forall₂_same.mpr (fun x _ => ⟨rfl, rfl, rfl⟩)

theorem shapeEq_trans : ∀ {a b c : NodeMap}, shapeEq a b → shapeEq b c → shapeEq a c := by
  intro a b c h1 h2
  unfold shapeEq at h1 h2 ⊢
  induction h1 generalizing c with
  | nil =>
    cases h2
    exact List.Forall₂.nil
  | @cons e1 e2 t1 t2 hx hrest ih =>
    cases h2 with
    | cons hy hrest2 =>
      exact List.Forall₂.cons
        ⟨hx.1.trans hy.1, hx.2.1.trans hy.2.1, hx.2.2.trans hy.2.2⟩ (ih hrest2)

theorem shapeEq_updateKey_mm (j : Nat) (h : NodeState → NodeState)
    (hp : ∀ ns, (h ns).NumberOfAssignments = ns.NumberOfAssignments
      ∧ (h ns).Nodes = ns.Nodes) :
    ∀ ms : NodeMap, shapeEq ms (updateKey j h ms) := by
  intro ms
  unfold shapeEq
  induction ms with
  | nil => exact List.Forall₂.nil
  | cons kv rest ih =>
    rw [updateKey]
    by_cases hk : kv.1 = j
    · rw [if_pos hk]
      exact List.Forall₂.cons ⟨hk, (hp kv.2).1.symm, (hp kv.2).2.symm⟩
        (List.forall₂_same.mpr (fun x _ => ⟨rfl, rfl, rfl⟩))
    · rw [if_neg hk]
      exact List.Forall₂.cons ⟨rfl, rfl, rfl⟩ ih

theorem shapeEq_reserveFold (r : ResourceName) :
    ∀ (bits : List Nat) (st : Nat × NodeMap),
      shapeEq st.2 (bits.foldl (reserveMemStep r) st).2 := by
  intro bits
  induction bits with
  | nil => intro st; exact shapeEq_refl st.2
  | cons n bs ih =>
    intro st
    rw [List.foldl_cons]
    refine shapeEq_trans ?_ (ih (reserveMemStep r st n))
    rcases reserveMemStep_snd_cases r st n with h1 | ⟨g, h2⟩
    · rw [h1]
      exact shapeEq_refl st.2
    · rw [h2]
      unfold updateMem
      exact shapeEq_updateKey_mm n
        (fun ns => { ns with MemoryMap := updateKey r g ns.MemoryMap })
        (fun ns => ⟨rfl, rfl⟩) st.2

theorem shapeEq_reserveMulti (bits : List Nat) :
    ∀ (ras : List (ResourceName × Nat)) (ms : NodeMap),
      shapeEq ms (reserveMulti bits ras ms) := by
  intro ras
  induction ras with
  | nil => intro ms; exact shapeEq_refl ms
  | cons rq rest ih =>
    intro ms
    have h1 : reserveMulti bits (rq :: rest) ms
        = reserveMulti bits rest ((bits.foldl (reserveMemStep rq.1) (rq.2, ms)).2) := rfl
    rw [h1]
    exact shapeEq_trans (shapeEq_reserveFold rq.1 bits (rq.2, ms)) (ih _)

theorem lookupKey_shapeEq : ∀ {ms1 ms2 : NodeMap}, shapeEq ms1 ms2 → ∀ (j : Nat),
    (lookupKey j ms1).map (fun ns => (ns.NumberOfAssignments, ns.Nodes))
      = (lookupKey j ms2).map (fun ns => (ns.NumberOfAssignments, ns.Nodes)) := by
  intro ms1 ms2 h
  unfold shapeEq at h
  induction h with
  | nil => intro j; rfl
  | @cons e1 e2 l1 l2 hx hrest ih =>
    intro j
    rw [lookupKey, lookupKey]
    by_cases hk : e1.1 = j
    · rw [if_pos hk, if_pos (hx.1.symm.trans hk)]
      dsimp
      rw [hx.2.1, hx.2.2]
    · rw [if_neg hk, if_neg (fun he => hk (hx.1.trans he))]
      exact ih j

theorem forall2_mem_right {α β : Type} {R : α → β → Prop} :
    ∀ {l1 : List α} {l2 : List β}, List.Forall₂ R l1 l2 → ∀ {y : β}, y ∈ l2 →
      ∃ x ∈ l1, R x y := by
  intro l1 l2 h
  induction h with
  | nil => intro y hy; exact absurd hy (List.not_mem_nil y)
  | @cons a b t1 t2 hab hrest ih =>
    intro y hy
    rcases List.mem_cons.mp hy with h1 | h2
    · exact ⟨a, List.mem_cons_self a t1, h1.symm ▸ hab⟩
    · rcases ih h2 with ⟨x, hx, hr⟩
      exact ⟨x, List.mem_cons_of_mem a hx, hr⟩

theorem groupCoherent_eq_true_iff (ms : NodeMap) :
    groupCoherent ms = true ↔ ∀ e ∈ ms,
      (e.2.NumberOfAssignments > 0 → ∀ m ∈ e.2.Nodes,
        ∃ ns2, lookupKey m ms = some ns2 ∧ ns2.NumberOfAssignments > 0
          ∧ areGroupsEqual ns2.Nodes e.2.Nodes = true)
      ∧ (e.2.NumberOfAssignments = 0 → e.2.Nodes = [e.1]) := by
  unfold groupCoherent
  rw [List.all_eq_true]
  constructor
  · intro h e he
    have h2 : ((if e.2.NumberOfAssignments > 0 then
        e.2.Nodes.all (fun m =>
          match lookupKey m ms with
          | some ns2 => decide (ns2.NumberOfAssignments > 0)
              && areGroupsEqual ns2.Nodes e.2.Nodes
          | none => false)
      else true)
      && (if e.2.NumberOfAssignments = 0 then e.2.Nodes == [e.1] else true)) = true :=
      h e he
    rw [Bool.and_eq_true] at h2
    constructor
    · intro hgt m hm
      have h3 := h2.1
      rw [if_pos hgt] at h3
      have h4 : (match lookupKey m ms with
          | some ns2 => decide (ns2.NumberOfAssignments > 0)
              && areGroupsEqual ns2.Nodes e.2.Nodes
          | none => false) = true := List.all_eq_true.mp h3 m hm
      cases hlm : lookupKey m ms with
      | none =>
        rw [hlm] at h4
        exact absurd (show false = true from h4) (by simp)
      | some ns2 =>
        rw [hlm] at h4
        have h5 : (decide (ns2.NumberOfAssignments > 0)
            && areGroupsEqual ns2.Nodes e.2.Nodes) = true := h4
        rw [Bool.and_eq_true] at h5
        exact ⟨ns2, rfl, of_decide_eq_true h5.1, h5.2⟩
    · intro h0
      have h3 := h2.2
      rw [if_pos h0] at h3
      exact eq_of_beq h3
  · intro h e he
    have h2 := h e he
    show ((if e.2.NumberOfAssignments > 0 then
        e.2.Nodes.all (fun m =>
          match lookupKey m ms with
          | some ns2 => decide (ns2.NumberOfAssignments > 0)
              && areGroupsEqual ns2.Nodes e.2.Nodes
          | none => false)
      else true)
      && (if e.2.NumberOfAssignments = 0 then e.2.Nodes == [e.1] else true)) = true
    rw [Bool.and_eq_true]
    constructor
    · by_cases hgt : e.2.NumberOfAssignments > 0
      · rw [if_pos hgt, List.all_eq_true]
        intro m hm
        rcases h2.1 hgt m hm with ⟨ns2, hlk, hpos, hgr⟩
        show (match lookupKey m ms with
          | some ns2 => decide (ns2.NumberOfAssignments > 0)
              && areGroupsEqual ns2.Nodes e.2.Nodes
          | none => false) = true
        rw [hlk]
        show (decide (ns2.NumberOfAssignments > 0)
            && areGroupsEqual ns2.Nodes e.2.Nodes) = true
        rw [Bool.and_eq_true]
        exact ⟨decide_eq_true hpos, hgr⟩
      · rw [if_neg hgt]
    · by_cases h0 : e.2.NumberOfAssignments = 0
      · rw [if_pos h0, h2.2 h0]
        exact beq_self_eq_true _
      · rw [if_neg h0]

theorem groupCoherent_shapeEq_true {ms1 ms2 : NodeMap} (h : shapeEq ms1 ms2)
    (hco : groupCoherent ms1 = true) : groupCoherent ms2 = true := by
  have h1 := (groupCoherent_eq_true_iff ms1).mp hco
  rw [groupCoherent_eq_true_iff]
  intro e2 he2
  rcases forall2_mem_right h he2 with ⟨e1, he1, hr⟩
  obtain ⟨hk, hA, hN⟩ := hr
  have hP := h1 e1 he1
  constructor
  · intro hgt m hm
    rw [← hN] at hm
    rcases hP.1 (by rw [hA]; exact hgt) m hm with ⟨ns2, hlk, hpos, hgr⟩
    have hop := lookupKey_shapeEq h m
    rw [hlk] at hop
    cases hlk2 : lookupKey m ms2 with
    | none =>
      rw [hlk2] at hop
      exact absurd hop (by simp)
    | some w =>
      rw [hlk2] at hop
      have hop2 : (ns2.NumberOfAssignments, ns2.Nodes)
          = (w.NumberOfAssignments, w.Nodes) := by
        injection hop
      have hA2 := congrArg Prod.fst hop2
      have hN2 := congrArg Prod.snd hop2
      dsimp at hA2 hN2
      refine ⟨w, rfl, by omega, ?_⟩
      rw [← hN2, ← hN]
      exact hgr
  · intro h0
    rw [← hN, ← hk]
    exact hP.2 (by rw [hA]; exact h0)

theorem groupCoherent_bumpK {mb : List Nat} (hndmb : mb.Nodup) (k : Nat)
    {ms : NodeMap} (hndms : (ms.map Prod.fst).Nodup)
    (hco : groupCoherent ms = true)
    (hfr : ∀ n ∈ mb, ∀ v, lookupKey n ms = some v →
      v.NumberOfAssignments = 0 ∧ v.Nodes = [n])
    (hex : ∀ n ∈ mb, (lookupKey n ms).isSome = true) :
    groupCoherent (mapNodes mb (fun _ => bumpKFn mb k) ms) = true := by
  have hms := (groupCoherent_eq_true_iff ms).mp hco
  rw [groupCoherent_eq_true_iff]
  intro e he
  have hnd2 : ((mapNodes mb (fun _ => bumpKFn mb k) ms).map Prod.fst).Nodup := by
    rw [mapNodes_keys]
    exact hndms
  have hlk := mem_lookupKey_nodup hnd2 he
  by_cases hjm : e.1 ∈ mb
  · rw [lookupKey_mapNodes_mem _ mb hndmb hjm ms] at hlk
    cases hv : lookupKey e.1 ms with
    | none =>
      rw [hv] at hlk
      exact absurd hlk (by simp)
    | some v =>
      rw [hv] at hlk
      have hbk : bumpKFn mb k v = e.2 := by
        injection hlk
      obtain ⟨hA0, hN⟩ := hfr e.1 hjm v hv
      cases k with
      | zero =>
        have hve : v = e.2 := (bumpKFn_zero mb v).symm.trans hbk
        constructor
        · intro hgt
          exact absurd hgt (by rw [← hve, hA0]; omega)
        · intro _
          rw [← hve, hN]
      | succ k2 =>
        obtain ⟨a, mm, nodes⟩ := v
        dsimp at hA0 hN
        subst hA0
        subst hN
        have he2 : e.2 = (⟨0 + (k2 + 1), mm, mb⟩ : NodeState) := hbk.symm
        rw [he2]
        dsimp
        constructor
        · intro _ m hm
          rcases Option.isSome_iff_exists.mp (hex m hm) with ⟨vm, hvm⟩
          obtain ⟨hA0m, hNm⟩ := hfr m hm vm hvm
          obtain ⟨am, mmm, nodesm⟩ := vm
          dsimp at hA0m hNm
          subst hA0m
          subst hNm
          refine ⟨⟨0 + (k2 + 1), mmm, mb⟩, ?_, show (0 : Nat) + (k2 + 1) > 0 by omega, ?_⟩
          · rw [lookupKey_mapNodes_mem _ mb hndmb hm ms, hvm]
            rfl
          · dsimp
            unfold areGroupsEqual
            exact beq_self_eq_true _
        · intro h0
          exact absurd h0 (by omega)
  · rw [lookupKey_mapNodes_not_mem _ mb hjm ms] at hlk
    have hP := hms (e.1, e.2) (lookupKey_mem hlk)
    constructor
    · intro hgt m hm
      rcases hP.1 hgt m hm with ⟨ns2, hlk2, hpos2, hgr2⟩
      have hmnotmb : m ∉ mb := by
        intro hmmb
        obtain ⟨hz, _⟩ := hfr m hmmb ns2 hlk2
        omega
      refine ⟨ns2, ?_, hpos2, hgr2⟩
      rw [lookupKey_mapNodes_not_mem _ mb hmnotmb ms]
      exact hlk2
    · intro h0
      exact hP.2 h0

/-- C5 (amended): group coherence is preserved by a successful Allocate
whose resolved mask's nodes are present in the machine state and fresh
(no assignments, singleton groups, no reserved bytes for the requested
types).  The spec's unconditional invariant fails because Allocate
applies a stored affinity unchecked whenever the free bytes suffice,
overwriting part of an existing group (see the counterexample). -/
theorem C5_group_coherence_amended (p : PolicyState) (pod : Pod) (container : Container)
    (hint : TopologyHint) (q : PolicyState) (bh : TopologyHint)
    (hnd : (p.machineState.map Prod.fst).Nodup)
    (hco : groupCoherent p.machineState = true)
    (hnob : getMemoryBlocks p.assignments pod.uid container.name = [])
    (hre : resolveBestHint p.machineState (lookupD p.memoryToReuse pod.uid [])
      (getRequestedResources container) hint = Except.ok bh)
    (hok : Allocate p pod container hint = Except.ok q)
    (hfr : freshForMask p.machineState
      (requestedAbsoluteOf (getRequestedResources container)
        (lookupD p.memoryToReuse pod.uid []))
      (getBitsOpt bh.NUMANodeAffinity) = true)
    (hex : (getBitsOpt bh.NUMANodeAffinity).all
      (fun n => (lookupKey n p.machineState).isSome) = true) :
    groupCoherent q.machineState = true := by
  by_cases hq : pod.qosClass = PodQOSClass.Guaranteed
  · rw [Allocate_success hq hnob hre] at hok
    injection hok with hok2
    subst hok2
    have hsnd : (allocSuccessor p pod container bh).machineState
        = mapNodesIter (getBitsOpt bh.NUMANodeAffinity)
            (fun _ => bumpFn (getBitsOpt bh.NUMANodeAffinity))
            (requestedAbsoluteOf (getRequestedResources container)
              (lookupD p.memoryToReuse pod.uid [])).length
            (reserveMulti (getBitsOpt bh.NUMANodeAffinity)
              (requestedAbsoluteOf (getRequestedResources container)
                (lookupD p.memoryToReuse pod.uid []))
              p.machineState) :=
      applyFold_snd (getBitsOpt bh.NUMANodeAffinity) (getRequestedResources container)
        (requestedAbsoluteOf (getRequestedResources container)
          (lookupD p.memoryToReuse pod.uid []))
        [] p.machineState
    rw [hsnd,
      ← reserveMulti_mapNodesIter_blind (fun j => mmBlind_bumpFn _)
        (getBitsOpt bh.NUMANodeAffinity)
        (requestedAbsoluteOf (getRequestedResources container)
          (lookupD p.memoryToReuse pod.uid []))
        (getBitsOpt bh.NUMANodeAffinity)
        (requestedAbsoluteOf (getRequestedResources container)
          (lookupD p.memoryToReuse pod.uid [])).length
        p.machineState,
      mapNodesIter_bump_char (getBitsOpt bh.NUMANodeAffinity)
        (getBitsOpt_nodup bh.NUMANodeAffinity)
        (requestedAbsoluteOf (getRequestedResources container)
          (lookupD p.memoryToReuse pod.uid [])).length
        p.machineState]
    exact groupCoherent_shapeEq_true
      (shapeEq_reserveMulti (getBitsOpt bh.NUMANodeAffinity)
        (requestedAbsoluteOf (getRequestedResources container)
          (lookupD p.memoryToReuse pod.uid [])) _)
      (groupCoherent_bumpK (getBitsOpt_nodup bh.NUMANodeAffinity)
        (requestedAbsoluteOf (getRequestedResources container)
          (lookupD p.memoryToReuse pod.uid [])).length
        hnd hco (freshForMask_spec hfr).1
        (fun n hn => List.all_eq_true.mp hex n hn))
  · rw [Allocate_not_guaranteed hq] at hok
    injection hok with hok2
    subst hok2
    exact hco

/-- Witness for the amended coherence preservation at the two-node
fixture. -/
theorem C5_group_coherence_amended_witness :
    (stRT.machineState.map Prod.fst).Nodup
    ∧ groupCoherent stRT.machineState = true
    ∧ getMemoryBlocks stRT.assignments podRT.uid ctrRT.name = []
    ∧ Allocate stRT podRT ctrRT hintRT = Except.ok qRT
    ∧ (getBitsOpt bhRT.NUMANodeAffinity).all
        (fun n => (lookupKey n stRT.machineState).isSome) = true
    ∧ groupCoherent qRT.machineState = true :=
  ⟨by decide, by decide, rfl, rfl, by decide,
   C5_group_coherence_amended stRT podRT ctrRT hintRT qRT bhRT (by decide) (by decide)
     rfl rfl rfl (by decide) (by decide)⟩

end MemMgr
